import Mathlib

/-!
# Money-habits simulator: model of `src/app.js`

A shallow embedding of the analytics engine of `FinanceModel` and
`FinanceController`, followed by theorems about it.

Modelling conventions.

* A JavaScript number is a `JSNum`: a finite value (a rational), `NaN`, `+Infinity` or
  `-Infinity`.  The operators `+ - * /` on `JSNum` are exact; the operators `addD`,
  `subD`, `mulD`, `divD` round the exact result to the nearest double, as the machine
  does.  The functions of the source are embedded with the exact operators; those whose
  outcome rounding decides (the goal tiers, the comparison of sums added in different
  orders) are embedded a second time with the rounding operators, under the same name
  followed by `D`.  The sign of zero is not modelled.
* A JavaScript value read from a transaction field is a `JSVal`, which keeps what
  the code observes of it: its `Number(...)` coercion and its truthiness.
* Mutable fields of the model object become explicit state: every method takes the
  state it reads and returns the state it writes.  `localStorage` is not modelled.
* A date string `YYYY-MM-DD` is an `IsoDate`; `new Date(s)` of such a string is midnight
  UTC of that day.  The getters `getFullYear` and `getMonth` read a time value in local
  time, so the functions that call them take the environment's time zone (`LocalTZA`).
  The clock (`Date.now()`, `new Date()`) is an argument of the methods that read it.
* An object used as a map (`buckets`, `totals`, `habits`) is a `JSObj`: its own entries
  in insertion order, which is the order `Object.entries` lists keys of the form
  `YYYY-MM` in.  For `totals`, whose keys are category names, the members inherited
  from `Object.prototype` are part of the model (`readTotals`, `writeTotals`).
-/

namespace MoneyHabits

/-! ## JavaScript numbers -/

/-- A JavaScript number: finite (exact), `NaN`, `+Infinity`, `-Infinity`. -/
inductive JSNum where
  | fin (q : ℚ)
  | nan
  | pinf
  | ninf
  deriving DecidableEq

namespace JSNum

/-- The operator `a + b` on numbers. -/
def add : JSNum → JSNum → JSNum
  | fin a, fin b => fin (a + b)
  | nan, _ => nan
  | _, nan => nan
  | pinf, ninf => nan
  | ninf, pinf => nan
  | pinf, _ => pinf
  | _, pinf => pinf
  | ninf, _ => ninf
  | _, ninf => ninf

/-- The unary operator `-a`. -/
def neg : JSNum → JSNum
  | fin a => fin (-a)
  | nan => nan
  | pinf => ninf
  | ninf => pinf

/-- The operator `a - b` on numbers. -/
def sub (a b : JSNum) : JSNum := add a (neg b)

/-- An infinity of the given sign (`true` is positive). -/
def infOfSign (positive : Bool) : JSNum := if positive then pinf else ninf

/-- The operator `a * b` on numbers. -/
def mul : JSNum → JSNum → JSNum
  | fin a, fin b => fin (a * b)
  | nan, _ => nan
  | _, nan => nan
  | pinf, fin b => if b = 0 then nan else infOfSign (decide (0 < b))
  | ninf, fin b => if b = 0 then nan else infOfSign (decide (b < 0))
  | fin a, pinf => if a = 0 then nan else infOfSign (decide (0 < a))
  | fin a, ninf => if a = 0 then nan else infOfSign (decide (a < 0))
  | pinf, pinf => pinf
  | ninf, ninf => pinf
  | pinf, ninf => ninf
  | ninf, pinf => ninf

/-- The operator `a / b` on numbers; a zero divisor gives an infinity or `NaN`. -/
def div : JSNum → JSNum → JSNum
  | fin a, fin b =>
      if b = 0 then (if a = 0 then nan else infOfSign (decide (0 < a)))
      else fin (a / b)
  | nan, _ => nan
  | _, nan => nan
  | fin _, pinf => fin 0
  | fin _, ninf => fin 0
  | pinf, fin b => infOfSign (decide (0 ≤ b))
  | ninf, fin b => infOfSign (decide (b < 0))
  | pinf, pinf => nan
  | pinf, ninf => nan
  | ninf, pinf => nan
  | ninf, ninf => nan

instance : Add JSNum := ⟨add⟩
instance : Sub JSNum := ⟨sub⟩
instance : Mul JSNum := ⟨mul⟩
instance : Div JSNum := ⟨div⟩
instance : Neg JSNum := ⟨neg⟩
instance : Zero JSNum := ⟨fin 0⟩

/-- The comparison `a > b`; false as soon as one side is `NaN`. -/
def gt : JSNum → JSNum → Bool
  | fin a, fin b => decide (b < a)
  | nan, _ => false
  | _, nan => false
  | pinf, pinf => false
  | pinf, _ => true
  | _, pinf => false
  | ninf, _ => false
  | fin _, ninf => true

/-- The comparison `a >= b`; false as soon as one side is `NaN`. -/
def ge : JSNum → JSNum → Bool
  | fin a, fin b => decide (b ≤ a)
  | nan, _ => false
  | _, nan => false
  | pinf, _ => true
  | ninf, ninf => true
  | ninf, _ => false
  | fin _, pinf => false
  | fin _, ninf => true

/-- The comparison `a <= b`. -/
def le (a b : JSNum) : Bool := ge b a

/-- Truthiness of a number: `0` and `NaN` are falsy. -/
def truthy : JSNum → Bool
  | fin q => decide (q ≠ 0)
  | nan => false
  | pinf => true
  | ninf => true

/-- The expression `a || b` on numbers. -/
def or (a b : JSNum) : JSNum := if a.truthy then a else b

/-- The call `Math.max(a, b)`. -/
def max : JSNum → JSNum → JSNum
  | nan, _ => nan
  | _, nan => nan
  | a, b => if ge a b then a else b

end JSNum

/-! ## IEEE double rounding -/

/-- Halving `n` until it is below 2, at most `fuel` times: the number of halvings. -/
def log2Fuel : Nat → Nat → Nat
  | 0, _ => 0
  | fuel + 1, n => if 2 ≤ n then log2Fuel fuel (n / 2) + 1 else 0

/-- The integer `k` with `2^k ≤ n < 2^(k+1)`, for positive `n`. -/
def log2 (n : Nat) : Nat := log2Fuel n n

/-- The integer `e` with `2^e ≤ n/d < 2^(e+1)`, for positive `n` and `d`. -/
def floorLog2 (n d : Nat) : Int :=
  if d * 2 ^ log2 n ≤ n * 2 ^ log2 d then (log2 n : Int) - log2 d
  else (log2 n : Int) - log2 d - 1

/-- The integer nearest to `n/d`, a tie going to the even one. -/
def roundHalfEven (n d : Nat) : Nat :=
  if 2 * (n % d) < d then n / d
  else if d < 2 * (n % d) then n / d + 1
  else if (n / d) % 2 = 0 then n / d
  else n / d + 1

/-- The positive rational `n/d` rounded to 53 significant bits (to a multiple of
`2^-1074` in the subnormal range), ties to even; the exponent is not bounded above. -/
def roundMagnitude (n d : Nat) : ℚ :=
  let k : Int := max (floorLog2 n d) (-1022) - 52
  let r := roundHalfEven (n * 2 ^ (-k).toNat) (d * 2 ^ k.toNat)
  (r : ℚ) * 2 ^ k.toNat / 2 ^ (-k).toNat

namespace JSNum

/-- The double nearest to the real number `q` (round to nearest, ties to even), an
infinity when the rounded magnitude reaches `2^1024`.  It is the value of a numeric
literal and of an arithmetic operation whose exact result is `q`. -/
def ofRat (q : ℚ) : JSNum :=
  if q = 0 then fin 0
  else if 2 ^ 1024 ≤ roundMagnitude q.num.natAbs q.den then
    (if 0 < q then pinf else ninf)
  else fin (if 0 < q then roundMagnitude q.num.natAbs q.den
    else -roundMagnitude q.num.natAbs q.den)

/-- Rounding of an exact result to a double; `NaN` and the infinities stay. -/
def round : JSNum → JSNum
  | fin q => ofRat q
  | nan => nan
  | pinf => pinf
  | ninf => ninf

/-- The operator `a + b` on doubles: the exact sum, rounded. -/
def addD (a b : JSNum) : JSNum := round (a + b)

/-- The operator `a - b` on doubles: the exact difference, rounded. -/
def subD (a b : JSNum) : JSNum := round (a - b)

/-- The operator `a * b` on doubles: the exact product, rounded. -/
def mulD (a b : JSNum) : JSNum := round (a * b)

/-- The operator `a / b` on doubles: the exact quotient, rounded. -/
def divD (a b : JSNum) : JSNum := round (a / b)

end JSNum

/-! ## JavaScript values held in a field -/

/-- A value read from an object field, by what the code can observe of it. -/
inductive JSVal where
  /-- The field is absent. -/
  | undefined
  /-- A falsy value that is not a number: `null`, `""`, `false`. -/
  | null
  /-- A number. -/
  | num (n : JSNum)
  /-- Any other truthy value (non-empty string, `true`, object), with its `Number(...)`. -/
  | truthy (toNumber : JSNum)
  deriving DecidableEq

namespace JSVal

/-- The call `Number(v)`. -/
def toNumber : JSVal → JSNum
  | undefined => JSNum.nan
  | null => JSNum.fin 0
  | num n => n
  | truthy n => n

/-- Truthiness of a value. -/
def isTruthy : JSVal → Bool
  | undefined => false
  | null => false
  | num n => n.truthy
  | truthy _ => true

/-- The expression `v || d`. -/
def or (v d : JSVal) : JSVal := if v.isTruthy then v else d

end JSVal

/-! ## Objects used as string-keyed maps -/

/-- An object used as a map from string keys, its own keys in insertion order. -/
abbrev JSObj (α : Type) := List (String × α)

namespace JSObj

/-- The read `obj[key]`; `none` stands for `undefined`. -/
def get {α : Type} : JSObj α → String → Option α
  | [], _ => none
  | (k, v) :: rest, key => if k = key then some v else get rest key

/-- The write `obj[key] = v`: an existing key keeps its place, a new key goes last. -/
def set {α : Type} : JSObj α → String → α → JSObj α
  | [], key, v => [(key, v)]
  | (k, w) :: rest, key, v =>
      if k = key then (k, v) :: rest else (k, w) :: set rest key v

end JSObj

/-! ## Dates -/

/-- Milliseconds in a day, `1000 * 60 * 60 * 24`. -/
def msPerDay : Int := 1000 * 60 * 60 * 24

/-- A date string of the form `YYYY-MM-DD`, by its three numeric fields. -/
structure IsoDate where
  year : Nat
  month : Nat
  day : Nat
  deriving DecidableEq

/-- Whether a year of the proleptic Gregorian calendar is a leap year. -/
def isLeapYear (y : Int) : Bool :=
  (y % 4 == 0 && y % 100 != 0) || y % 400 == 0

/-- Number of days of a month (1 to 12) in a year. -/
def daysInMonth (y : Int) (m : Nat) : Nat :=
  if m = 2 then (if isLeapYear y then 29 else 28)
  else if m = 4 ∨ m = 6 ∨ m = 9 ∨ m = 11 then 30
  else 31

/-- Days from 1970-01-01 to the civil date `y-m-d` (proleptic Gregorian). -/
def daysFromCivil (y : Int) (m d : Nat) : Int :=
  let y1 : Int := if m ≤ 2 then y - 1 else y
  let era : Int := y1 / 400
  let yoe : Int := y1 - era * 400
  let mp : Int := if m > 2 then (m : Int) - 3 else (m : Int) + 9
  let doy : Int := (153 * mp + 2) / 5 + (d : Int) - 1
  let doe : Int := yoe * 365 + yoe / 4 - yoe / 100 + doy
  era * 146097 + doe - 719468

/-- The civil date `(year, month)` of a day counted from 1970-01-01. -/
def civilFromDays (days : Int) : Int × Nat :=
  let z : Int := days + 719468
  let era : Int := z / 146097
  let doe : Int := z - era * 146097
  let yoe : Int := (doe - doe / 1460 + doe / 36524 - doe / 146096) / 365
  let doy : Int := doe - (365 * yoe + yoe / 4 - yoe / 100)
  let mp : Int := (5 * doy + 2) / 153
  let m : Int := if mp < 10 then mp + 3 else mp - 9
  let y : Int := yoe + era * 400
  (if m ≤ 2 then y + 1 else y, m.toNat)

namespace IsoDate

/-- Whether the fields name a day of the calendar. -/
def valid (d : IsoDate) : Bool :=
  decide (1 ≤ d.month) && decide (d.month ≤ 12) && decide (1 ≤ d.day) &&
    decide (d.day ≤ daysInMonth d.year d.month)

/-- The day number of the date, counted from 1970-01-01. -/
def epochDay (d : IsoDate) : Int := daysFromCivil d.year d.month d.day

/-- Time value of `new Date(s)` for a date-only string: midnight UTC of that day,
or `none` (an invalid date) when the fields name no day. -/
def parse (d : IsoDate) : Option Int :=
  if d.valid then some (d.epochDay * msPerDay) else none

end IsoDate

/-- A value held in a date field (`t.date`, `habit.lastDone`). -/
inductive DateVal where
  /-- A falsy value: `null`, `undefined`, `""`. -/
  | falsy
  /-- A string of the form `YYYY-MM-DD`. -/
  | iso (d : IsoDate)
  /-- Any other truthy value, with the time value of `new Date(v)` (`none`: invalid). -/
  | other (time : Option Int)
  deriving DecidableEq

namespace DateVal

/-- Truthiness of the field. -/
def isTruthy : DateVal → Bool
  | falsy => false
  | iso _ => true
  | other _ => true

/-- Time value of `new Date(v)`, `none` for an invalid date. -/
def time : DateVal → Option Int
  | falsy => none
  | iso d => d.parse
  | other t => t

end DateVal

/-- The number `d.getTime()`: `NaN` for an invalid date. -/
def getTime : Option Int → JSNum
  | some t => JSNum.fin t
  | none => JSNum.nan

/-- The environment's time zone: local time minus UTC, in milliseconds, at a UTC
time value. -/
abbrev LocalTZA := Int → Int

/-- The pair `(d.getFullYear(), d.getMonth() + 1)` of a valid date, read in local time. -/
def localYearMonth (tza : LocalTZA) (t : Int) : Int × Nat :=
  civilFromDays ((t + tza t) / msPerDay)

/-- The call `String(n).padStart(2, "0")`. -/
def padStart2 (s : String) : String :=
  if s.length < 2 then String.mk (List.replicate (2 - s.length) '0') ++ s else s

/-- The bucket key: year, a dash, and the month padded to two digits. -/
def monthKey (tza : LocalTZA) (t : Int) : String :=
  let ym := localYearMonth tza t
  toString ym.1 ++ "-" ++ padStart2 (toString ym.2)

/-! ## The ledger -/

/-- A stored transaction. -/
structure Transaction where
  id : Int
  type : String
  category : String
  amount : JSVal
  date : DateVal
  description : String
  deriving DecidableEq

/-- The object returned by `getSummary`. -/
structure Summary where
  income : JSNum
  expense : JSNum
  balance : JSNum
  savingsRate : JSNum
  deriving DecidableEq

/-- One entry of a monthly summary. -/
structure Bucket where
  month : String
  total : JSNum
  deriving DecidableEq

/-- The method `deleteTransaction`: keeps the transactions with `t.id !== id`. -/
def deleteTransaction (transactions : List Transaction) (id : Int) : List Transaction :=
  transactions.filter (fun t => t.id != id)

/-- One step of the `forEach` of `getSummary`, on the pair `(income, expense)`. -/
def summaryStep (acc : JSNum × JSNum) (t : Transaction) : JSNum × JSNum :=
  let amt := JSNum.or t.amount.toNumber 0
  let income := if t.type = "income" then acc.1 + amt else acc.1
  let expense := if t.type = "expense" then acc.2 + amt else acc.2
  (income, expense)

/-- The method `getSummary`. -/
def getSummary (transactions : List Transaction) : Summary :=
  let acc := transactions.foldl summaryStep (0, 0)
  let income := acc.1
  let expense := acc.2
  let balance := income - expense
  let savingsRate := if JSNum.gt income 0 then (balance / income) * JSNum.fin 100 else 0
  { income := income, expense := expense, balance := balance, savingsRate := savingsRate }

/-- One step of the `forEach` of a monthly summary for transactions of type `ty`. -/
def monthlyStep (tza : LocalTZA) (ty : String) (buckets : JSObj JSNum) (t : Transaction) :
    JSObj JSNum :=
  if t.type ≠ ty ∨ !t.date.isTruthy then buckets
  else match t.date.time with
    | none => buckets
    | some time =>
        let key := monthKey tza time
        let old : JSNum := match buckets.get key with
          | some v => JSNum.or v 0
          | none => 0
        buckets.set key (old + (JSVal.or t.amount (JSVal.num 0)).toNumber)

/-- The comparator `(a, b) => (a.month > b.month ? 1 : -1)`. -/
def compareMonth (a b : Bucket) : Int := if a.month > b.month then 1 else -1

/-- Insertion of an element in front of the first one it must precede. -/
def sortInsert {α : Type} (cmp : α → α → Int) (x : α) : List α → List α
  | [] => [x]
  | y :: ys => if cmp x y < 0 then x :: y :: ys else y :: sortInsert cmp x ys

/-- The call `array.sort(cmp)`, as an insertion sort.  Where the comparator orders
the elements strictly and totally, every sorting algorithm returns this list. -/
def jsSort {α : Type} (cmp : α → α → Int) : List α → List α
  | [] => []
  | x :: xs => sortInsert cmp x (jsSort cmp xs)

/-- The body shared by the two monthly summaries: bucket, list the entries, sort. -/
def monthlySummary (tza : LocalTZA) (ty : String) (transactions : List Transaction) :
    List Bucket :=
  let buckets := transactions.foldl (monthlyStep tza ty) []
  jsSort compareMonth (buckets.map (fun e => { month := e.1, total := e.2 }))

/-- The method `getMonthlyExpenseSummary`. -/
def getMonthlyExpenseSummary (tza : LocalTZA) (transactions : List Transaction) : List Bucket :=
  monthlySummary tza "expense" transactions

/-- The method `getMonthlyIncomeSummary`. -/
def getMonthlyIncomeSummary (tza : LocalTZA) (transactions : List Transaction) : List Bucket :=
  monthlySummary tza "income" transactions

/-! ## Habits -/

/-- The streak record of one habit. -/
structure Habit where
  streak : Int
  lastDone : DateVal
  deriving DecidableEq

/-- The habit map a fresh model starts with. -/
def defaultHabits : JSObj Habit :=
  [("log_daily", { streak := 0, lastDone := DateVal.falsy }),
   ("no_food_delivery", { streak := 0, lastDone := DateVal.falsy }),
   ("review_dashboard", { streak := 0, lastDone := DateVal.falsy })]

/-- The method `markHabitDoneToday`.  `today` is what the clock gives for
`new Date().toISOString().slice(0, 10)`; the result is the new habit map. -/
def markHabitDoneToday (today : IsoDate) (habits : JSObj Habit) (habitId : String) :
    JSObj Habit :=
  let habit : Habit := match habits.get habitId with
    | some h => h
    | none => { streak := 0, lastDone := DateVal.falsy }
  if habit.lastDone = DateVal.iso today then habits
  else
    let streak : Int :=
      if habit.lastDone.isTruthy then
        let diff := (getTime today.parse - getTime habit.lastDone.time) / JSNum.fin msPerDay
        if JSNum.le diff (JSNum.fin (3 / 2)) then habit.streak + 1 else 1
      else 1
    habits.set habitId { streak := streak, lastDone := DateVal.iso today }

/-! ## Goal evaluation -/

/-- Which of the four messages `handleGoalEvaluation` renders. -/
inductive GoalFeedback where
  /-- "This goal needs either more income or lower expenses." -/
  | needsMoreIncomeOrLowerExpenses
  /-- "You can comfortably reach ..." -/
  | comfortable
  /-- "... is possible but tight." -/
  | tight
  /-- "Extend the timeline or increase income." -/
  | infeasibleAtCurrentRate
  deriving DecidableEq

/-- The constant `monthlySavings` of `handleGoalEvaluation`. -/
def monthlySavings (summary : Summary) : JSNum :=
  if JSNum.gt summary.income 0 then summary.income - summary.expense else 0

/-- The body of `handleGoalEvaluation` once the summary has been read. -/
def goalFeedback (summary : Summary) (amount months : JSNum) : GoalFeedback :=
  let monthlySavings := monthlySavings summary
  let requiredSavingsPerMonth := amount / months
  if JSNum.le monthlySavings 0 then GoalFeedback.needsMoreIncomeOrLowerExpenses
  else
    let ratio := monthlySavings / requiredSavingsPerMonth
    if JSNum.ge ratio (JSNum.fin (12 / 10)) then GoalFeedback.comfortable
    else if JSNum.ge ratio (JSNum.fin (7 / 10)) then GoalFeedback.tight
    else GoalFeedback.infeasibleAtCurrentRate

/-- The constant `monthlySavings` of `handleGoalEvaluation`, in double arithmetic. -/
def monthlySavingsD (summary : Summary) : JSNum :=
  if JSNum.gt summary.income 0 then JSNum.subD summary.income summary.expense else 0

/-- The body of `handleGoalEvaluation` in double arithmetic: the difference and the two
quotients are rounded, and `1.2` and `0.7` are the doubles these literals denote. -/
def goalFeedbackD (summary : Summary) (amount months : JSNum) : GoalFeedback :=
  let monthlySavings := monthlySavingsD summary
  let requiredSavingsPerMonth := JSNum.divD amount months
  if JSNum.le monthlySavings 0 then GoalFeedback.needsMoreIncomeOrLowerExpenses
  else
    let ratio := JSNum.divD monthlySavings requiredSavingsPerMonth
    if JSNum.ge ratio (JSNum.ofRat (12 / 10)) then GoalFeedback.comfortable
    else if JSNum.ge ratio (JSNum.ofRat (7 / 10)) then GoalFeedback.tight
    else GoalFeedback.infeasibleAtCurrentRate

/-! ## Net-worth simulation -/

/-- One projection point. -/
structure Point where
  month : Nat
  value : JSNum
  deriving DecidableEq

/-- The `for` loop of `handleSimulatorChange`: `remaining` iterations are left, the
loop variable is `i`. -/
def simLoop (incomeGrowth expenseGrowth : JSNum) :
    Nat → Nat → JSNum → JSNum → JSNum → List Point → List Point
  | 0, _, _, _, _, points => points
  | remaining + 1, i, income, expense, netWorth, points =>
      let income := if i > 0 then income * (JSNum.fin 1 + incomeGrowth / JSNum.fin 100) else income
      let expense := if i > 0 then expense * (JSNum.fin 1 + expenseGrowth / JSNum.fin 100) else expense
      let netWorth := netWorth + (income - expense)
      simLoop incomeGrowth expenseGrowth remaining (i + 1) income expense netWorth
        (points ++ [{ month := i + 1, value := netWorth }])

/-- The total of the last bucket, `0` for an empty summary. -/
def lastTotal (monthly : List Bucket) : JSNum :=
  match monthly.getLast? with
  | some b => b.total
  | none => 0

/-- The handler `handleSimulatorChange`: the points it hands to the chart.  `months`
is an integer, as `parseInt` returns; the loop runs while `i < months`. -/
def handleSimulatorChange (tza : LocalTZA) (transactions : List Transaction) (months : Int)
    (incomeGrowth expenseGrowth : JSNum) : List Point :=
  let monthlyIncome := getMonthlyIncomeSummary tza transactions
  let monthlyExpense := getMonthlyExpenseSummary tza transactions
  if monthlyIncome.length = 0 ∧ monthlyExpense.length = 0 then []
  else
    let lastIncome := lastTotal monthlyIncome
    let lastExpense := lastTotal monthlyExpense
    simLoop incomeGrowth expenseGrowth months.toNat 0 lastIncome lastExpense 0 []

/-! ## Adding, category totals, trend estimate, habit events -/

/-- The argument of `addTransaction`: the object the form builds, which has no `id`. -/
structure TxData where
  type : String
  category : String
  amount : JSVal
  date : DateVal
  description : String
  deriving DecidableEq

/-- The entry `{ id: Date.now(), ...tx }`. -/
def newEntry (now : Int) (tx : TxData) : Transaction :=
  { id := now, type := tx.type, category := tx.category, amount := tx.amount,
    date := tx.date, description := tx.description }

/-- The method `addTransaction`; `now` is what the clock gives for `Date.now()`. -/
def addTransaction (now : Int) (transactions : List Transaction) (tx : TxData) :
    List Transaction :=
  transactions ++ [newEntry now tx]

/-- The names of the members that an object created by `{}` inherits from
`Object.prototype`; each of them is a function or an object, hence truthy. -/
def objectPrototypeKeys : List String :=
  ["constructor", "__defineGetter__", "__defineSetter__", "hasOwnProperty",
   "__lookupGetter__", "__lookupSetter__", "isPrototypeOf", "propertyIsEnumerable",
   "toString", "valueOf", "__proto__", "toLocaleString"]

/-- The read `totals[key]` on an object created by `{}` whose own values are numbers or
strings: the own value, else the inherited member, else `undefined`. -/
def readTotals (totals : JSObj JSVal) (key : String) : JSVal :=
  match totals.get key with
  | some v => v
  | none => if key ∈ objectPrototypeKeys then JSVal.truthy JSNum.nan else JSVal.undefined

/-- The write `totals[key] = v` of a number or a string: the setter of `__proto__`
ignores such a value, any other key becomes or stays an own key. -/
def writeTotals (totals : JSObj JSVal) (key : String) (v : JSVal) : JSObj JSVal :=
  if key = "__proto__" then totals else totals.set key v

/-- One step of the `forEach` of `getCategoryTotals`.  Where `totals[t.category] || 0`
is not a number (a string stored earlier, or an inherited member), `+` concatenates and
the result is a string that is not numeric. -/
def categoryStep (totals : JSObj JSVal) (t : Transaction) : JSObj JSVal :=
  if t.type ≠ "expense" then totals
  else
    let amt : JSNum := (JSVal.or t.amount (JSVal.num 0)).toNumber
    let sum : JSVal := match JSVal.or (readTotals totals t.category) (JSVal.num 0) with
      | JSVal.num n => JSVal.num (n + amt)
      | _ => JSVal.truthy JSNum.nan
    writeTotals totals t.category sum

/-- The method `getCategoryTotals`. -/
def getCategoryTotals (transactions : List Transaction) : JSObj JSVal :=
  transactions.foldl categoryStep []

/-! ## The aggregations in double arithmetic -/

/-- The step `summaryStep`, with the additions rounded. -/
def summaryStepD (acc : JSNum × JSNum) (t : Transaction) : JSNum × JSNum :=
  let amt := JSNum.or t.amount.toNumber 0
  let income := if t.type = "income" then JSNum.addD acc.1 amt else acc.1
  let expense := if t.type = "expense" then JSNum.addD acc.2 amt else acc.2
  (income, expense)

/-- The method `getSummary` in double arithmetic. -/
def getSummaryD (transactions : List Transaction) : Summary :=
  let acc := transactions.foldl summaryStepD (0, 0)
  let income := acc.1
  let expense := acc.2
  let balance := JSNum.subD income expense
  let savingsRate :=
    if JSNum.gt income 0 then JSNum.mulD (JSNum.divD balance income) (JSNum.fin 100) else 0
  { income := income, expense := expense, balance := balance, savingsRate := savingsRate }

/-- The handler `handleGoalEvaluation` in double arithmetic, on the ledger it reads the
summary from. -/
def handleGoalEvaluationD (transactions : List Transaction) (amount months : JSNum) :
    GoalFeedback :=
  goalFeedbackD (getSummaryD transactions) amount months

/-- The step `monthlyStep`, with the addition rounded. -/
def monthlyStepD (tza : LocalTZA) (ty : String) (buckets : JSObj JSNum) (t : Transaction) :
    JSObj JSNum :=
  if t.type ≠ ty ∨ !t.date.isTruthy then buckets
  else match t.date.time with
    | none => buckets
    | some time =>
        let key := monthKey tza time
        let old : JSNum := match buckets.get key with
          | some v => JSNum.or v 0
          | none => 0
        buckets.set key (JSNum.addD old (JSVal.or t.amount (JSVal.num 0)).toNumber)

/-- The method `getMonthlyExpenseSummary` in double arithmetic. -/
def getMonthlyExpenseSummaryD (tza : LocalTZA) (transactions : List Transaction) :
    List Bucket :=
  let buckets := transactions.foldl (monthlyStepD tza "expense") []
  jsSort compareMonth (buckets.map (fun e => { month := e.1, total := e.2 }))

/-- The step `categoryStep`, with the addition rounded. -/
def categoryStepD (totals : JSObj JSVal) (t : Transaction) : JSObj JSVal :=
  if t.type ≠ "expense" then totals
  else
    let amt : JSNum := (JSVal.or t.amount (JSVal.num 0)).toNumber
    let sum : JSVal := match JSVal.or (readTotals totals t.category) (JSVal.num 0) with
      | JSVal.num n => JSVal.num (JSNum.addD n amt)
      | _ => JSVal.truthy JSNum.nan
    writeTotals totals t.category sum

/-- The method `getCategoryTotals` in double arithmetic. -/
def getCategoryTotalsD (transactions : List Transaction) : JSObj JSVal :=
  transactions.foldl categoryStepD []

/-- The call `array.slice(-3)`: the last three elements, or all when there are fewer. -/
def sliceLast3 {α : Type} (l : List α) : List α := l.drop (l.length - 3)

/-- The constant `predictedClamped` of `handleRefreshInsights`, the next-month estimate;
`none` when `monthly.length >= 2` fails and no estimate is made. -/
def predictedClamped (monthly : List Bucket) : Option JSNum :=
  if monthly.length ≥ 2 then
    let lastThree := sliceLast3 monthly
    let n : JSNum := JSNum.fin lastThree.length
    let xs : List JSNum := (List.range lastThree.length).map (fun i => JSNum.fin (i + 1))
    let ys : List JSNum := lastThree.map (fun m => m.total)
    let sumX := xs.foldl (fun a b => a + b) 0
    let sumY := ys.foldl (fun a b => a + b) 0
    let sumXY := (xs.zip ys).foldl (fun acc xy => acc + xy.1 * xy.2) 0
    let sumX2 := xs.foldl (fun acc x => acc + x * x) 0
    let denom := n * sumX2 - sumX * sumX
    let predicted : JSNum :=
      if denom ≠ JSNum.fin 0 then
        let a := (n * sumXY - sumX * sumY) / denom
        let b := (sumY - a * sumX) / n
        a * (n + JSNum.fin 1) + b
      else
        match ys.getLast? with
        | some y => y
        | none => JSNum.nan
    some (JSNum.max (JSNum.fin 0) predicted)
  else none

/-- The estimate `handleRefreshInsights` renders for a ledger: none for an empty ledger,
where the handler returns before computing anything. -/
def handleRefreshInsights (tza : LocalTZA) (transactions : List Transaction) : Option JSNum :=
  if transactions.length = 0 then none
  else predictedClamped (getMonthlyExpenseSummary tza transactions)

/-- A "mark done" event: the date the clock gives and the habit marked. -/
structure HabitEvent where
  today : IsoDate
  habitId : String
  deriving DecidableEq

/-- The habit map after a sequence of `markHabitDoneToday` calls. -/
def runHabitEvents (events : List HabitEvent) (habits : JSObj Habit) : JSObj Habit :=
  events.foldl (fun hs e => markHabitDoneToday e.today hs e.habitId) habits

/-! ## Example data -/

/-- The time zone UTC. -/
def utc : LocalTZA := fun _ => 0

/-- A time zone five hours west of UTC (UTC-05:00). -/
def utcMinus5 : LocalTZA := fun _ => -5 * 60 * 60 * 1000

/-- A transaction with the given id, type, amount and date. -/
def mkTx (id : Int) (type : String) (amount : ℚ) (date : IsoDate) : Transaction :=
  { id := id, type := type, category := "General", amount := JSVal.num (JSNum.fin amount),
    date := DateVal.iso date, description := "" }

/-- The ledger of the specification's example: income 1000 on 2024-01-10, expense 400
on 2024-01-15, expense 300 on 2024-02-01. -/
def exampleLedger : List Transaction :=
  [mkTx 1 "income" 1000 ⟨2024, 1, 10⟩,
   mkTx 2 "expense" 400 ⟨2024, 1, 15⟩,
   mkTx 3 "expense" 300 ⟨2024, 2, 1⟩]

/-- A ledger with income 1000 and expense 1500. -/
def deficitLedger : List Transaction :=
  [mkTx 1 "income" 1000 ⟨2024, 3, 1⟩, mkTx 2 "expense" 1500 ⟨2024, 3, 2⟩]

/-- A ledger with income 2000 and expense 1200. -/
def goalLedger : List Transaction :=
  [mkTx 1 "income" 2000 ⟨2024, 3, 1⟩, mkTx 2 "expense" 1200 ⟨2024, 3, 2⟩]

/-- A habit map where `log_daily` has a streak of 4, last done on 2024-02-27. -/
def sampleHabits : JSObj Habit :=
  [("log_daily", { streak := 4, lastDone := DateVal.iso ⟨2024, 2, 27⟩ }),
   ("no_food_delivery", { streak := 0, lastDone := DateVal.falsy })]

/-- An expense with the given id, category and date, whose amount is the double that
the decimal `amount` denotes. -/
def mkExpense (id : Int) (category : String) (amount : ℚ) (date : IsoDate) : Transaction :=
  { id := id, type := "expense", category := category,
    amount := JSVal.num (JSNum.ofRat amount), date := DateVal.iso date, description := "" }

/-- Expenses 0.1 (Food), 0.3 (Rent), 0.7 (Food). -/
def categoryRoundingLedger : List Transaction :=
  [mkExpense 1 "Food" (1 / 10) ⟨2024, 1, 5⟩,
   mkExpense 2 "Rent" (3 / 10) ⟨2024, 1, 6⟩,
   mkExpense 3 "Food" (7 / 10) ⟨2024, 1, 7⟩]

/-- Expenses 0.1 (January), 0.7 (February), 0.3 (January). -/
def monthlyRoundingLedger : List Transaction :=
  [mkExpense 1 "Food" (1 / 10) ⟨2024, 1, 5⟩,
   mkExpense 2 "Food" (7 / 10) ⟨2024, 2, 6⟩,
   mkExpense 3 "Food" (3 / 10) ⟨2024, 1, 7⟩]

/-- One expense of 50 in the category "constructor". -/
def constructorLedger : List Transaction :=
  [mkExpense 1 "constructor" 50 ⟨2024, 1, 5⟩]

/-- One income, of the given number. -/
def incomeLedger (amount : JSNum) : List Transaction :=
  [{ id := 1, type := "income", category := "Salary", amount := JSVal.num amount,
     date := DateVal.iso ⟨2024, 1, 5⟩, description := "" }]

/-- Three events: `log_daily` marked on 2024-02-28 and on 2024-02-29, then a habit
outside the default map marked on 2024-03-05. -/
def sampleEvents : List HabitEvent :=
  [{ today := ⟨2024, 2, 28⟩, habitId := "log_daily" },
   { today := ⟨2024, 2, 29⟩, habitId := "log_daily" },
   { today := ⟨2024, 3, 5⟩, habitId := "read_book" }]

/-- Four monthly buckets, with totals 5000, 900, 500 and 100. -/
def sampleMonthly : List Bucket :=
  [{ month := "2023-11", total := JSNum.fin 5000 },
   { month := "2023-12", total := JSNum.fin 900 },
   { month := "2024-01", total := JSNum.fin 500 },
   { month := "2024-02", total := JSNum.fin 100 }]

/-! ## Reference definitions, from the specification's wording -/

/-- The amount a transaction counts for in the summary: its numeric amount, a
missing or non-numeric amount counting as `0`. -/
def countedAmount (t : Transaction) : JSNum :=
  match t.amount.toNumber with
  | JSNum.nan => 0
  | n => n

/-- Sum of the counted amounts of the transactions of type `ty`. -/
def totalOfType (ty : String) (transactions : List Transaction) : JSNum :=
  ((transactions.filter (fun t => t.type = ty)).map countedAmount).sum

/-- Sum of squared residuals of the line `y = a * x + b` against the points
`(i, y_i)`, `i` counting from `start`. -/
def residualsFrom (a b : ℚ) : Nat → List ℚ → ℚ
  | _, [] => 0
  | i, y :: ys => (y - (a * i + b)) ^ 2 + residualsFrom a b (i + 1) ys

/-- Sum over `i = 1..n` of `(y_i - (a * i + b))^2`. -/
def sumSquaredResiduals (ys : List ℚ) (a b : ℚ) : ℚ := residualsFrom a b 1 ys

/-- Sum of the values of an object whose values are numbers. -/
def valuesSum (obj : JSObj JSNum) : JSNum := (obj.map Prod.snd).sum

/-- Sum of the totals of a monthly summary. -/
def totalsSum (monthly : List Bucket) : JSNum := (monthly.map (fun b => b.total)).sum

/-- Sum of the totals of a monthly summary in double arithmetic, added in the order of
the summary. -/
def totalsSumD (monthly : List Bucket) : JSNum :=
  (monthly.map (fun b => b.total)).foldl JSNum.addD 0

/-- The object whose values are the given numbers. -/
def numericTotals (nums : JSObj JSNum) : JSObj JSVal :=
  nums.map (fun e => (e.1, JSVal.num e.2))

/-- The operator `a + b` on two values of a totals object: the sum of two numbers, and
a non-numeric string as soon as one of them is a string. -/
def plusValue : JSVal → JSVal → JSVal
  | JSVal.num a, JSVal.num b => JSVal.num (a + b)
  | _, _ => JSVal.truthy JSNum.nan

/-- The operator `plusValue` in double arithmetic. -/
def plusValueD : JSVal → JSVal → JSVal
  | JSVal.num a, JSVal.num b => JSVal.num (JSNum.addD a b)
  | _, _ => JSVal.truthy JSNum.nan

/-- Sum of the values of the object `getCategoryTotals` returns, added from `0` in the
order of its keys. -/
def sumOfValues (totals : JSObj JSVal) : JSVal :=
  (totals.map Prod.snd).foldl plusValue (JSVal.num 0)

/-- Every value of the object is a whole number, at most `b`. -/
def wholeUpTo (b : Nat) (nums : JSObj JSNum) : Prop :=
  ∀ e ∈ nums, ∃ v : Nat, e.2 = JSNum.fin v ∧ v ≤ b

/-- Sum of the values of the object `getCategoryTotals` returns, in double arithmetic. -/
def sumOfValuesD (totals : JSObj JSVal) : JSVal :=
  (totals.map Prod.snd).foldl plusValueD (JSVal.num 0)

/-- The habit invariant of the data model for one entry, after the events `events`:
the streak is not negative, and `lastDone` is null or a valid date that an event for
this habit carried, hence not later than the date of the event that set it. -/
def habitInvariant (events : List HabitEvent) (entry : String × Habit) : Prop :=
  0 ≤ entry.2.streak ∧
  (entry.2.lastDone = DateVal.falsy ∨
    ∃ e ∈ events, e.habitId = entry.1 ∧ entry.2.lastDone = DateVal.iso e.today ∧
      e.today.valid = true ∧
      ∀ d : IsoDate, entry.2.lastDone = DateVal.iso d → d.epochDay ≤ e.today.epochDay)

/-- Closed form of the projected net worth after `k` months, from seeds `I` and `E`
with growth percentages `g` and `h`. -/
def projectedNetWorth (I E g h : ℚ) (k : Nat) : ℚ :=
  ∑ j in Finset.range k, (I * (1 + g / 100) ^ j - E * (1 + h / 100) ^ j)

/-! ## Arithmetic facts on `JSNum` -/

namespace JSNum

theorem add_def (a b : JSNum) : a + b = add a b := rfl

theorem sub_def (a b : JSNum) : a - b = add a (neg b) := rfl

theorem mul_def (a b : JSNum) : a * b = mul a b := rfl

theorem div_def (a b : JSNum) : a / b = div a b := rfl

theorem zero_def : (0 : JSNum) = fin 0 := rfl

@[simp] theorem fin_add_fin (a b : ℚ) : fin a + fin b = fin (a + b) := rfl

@[simp] theorem fin_sub_fin (a b : ℚ) : fin a - fin b = fin (a - b) := by
  show add (fin a) (neg (fin b)) = fin (a - b)
  simp [add, neg, sub_eq_add_neg]

@[simp] theorem fin_mul_fin (a b : ℚ) : fin a * fin b = fin (a * b) := rfl

theorem fin_div_fin (a b : ℚ) (hb : b ≠ 0) : fin a / fin b = fin (a / b) := by
  show div (fin a) (fin b) = fin (a / b)
  simp [div, hb]

protected theorem add_zero (a : JSNum) : a + 0 = a := by
  cases a <;> simp [add_def, zero_def, add]

protected theorem zero_add (a : JSNum) : 0 + a = a := by
  cases a <;> simp [add_def, zero_def, add]

protected theorem add_comm (a b : JSNum) : a + b = b + a := by
  cases a <;> cases b <;> simp [add_def, add, Rat.add_comm]

protected theorem add_assoc (a b c : JSNum) : a + b + c = a + (b + c) := by
  cases a <;> cases b <;> cases c <;> simp [add_def, add, Rat.add_assoc]

end JSNum

/-! ## Summary -/

theorem or_zero_eq_countedAmount (t : Transaction) :
    JSNum.or t.amount.toNumber 0 = countedAmount t := by
  unfold countedAmount JSNum.or
  cases h : t.amount.toNumber with
  | fin q =>
      by_cases hq : q = 0
      · simp [JSNum.truthy, hq, JSNum.zero_def]
      · simp [JSNum.truthy, hq]
  | nan => simp [JSNum.truthy]
  | pinf => simp [JSNum.truthy]
  | ninf => simp [JSNum.truthy]

theorem foldl_summaryStep (ts : List Transaction) (a b : JSNum) :
    ts.foldl summaryStep (a, b)
      = (a + totalOfType "income" ts, b + totalOfType "expense" ts) := by
  induction ts generalizing a b with
  | nil => simp [totalOfType, JSNum.add_zero]
  | cons t ts ih =>
      rw [List.foldl_cons, summaryStep, ih]
      simp only [totalOfType, or_zero_eq_countedAmount]
      by_cases h1 : t.type = "income" <;> by_cases h2 : t.type = "expense" <;>
        simp [List.filter_cons, h1, h2, JSNum.add_assoc]

/-- C1: `getSummary` returns as income the sum of the amounts of the income
transactions, as expense the sum of the amounts of the expense transactions (a missing
or non-numeric amount counting as 0, other types counting in neither), and as balance
exactly income minus expense. -/
theorem getSummary_totals (transactions : List Transaction) :
    (getSummary transactions).income = totalOfType "income" transactions ∧
    (getSummary transactions).expense = totalOfType "expense" transactions ∧
    (getSummary transactions).balance
      = (getSummary transactions).income - (getSummary transactions).expense := by
  simp only [getSummary]
  rw [foldl_summaryStep]
  simp [JSNum.zero_add]

/-- C2: when the income total is not positive (zero, negative or `NaN`) the savings
rate is 0, the quotient by the income not being taken; when it is positive the savings
rate is `balance / income * 100`, which for finite totals `I` and `E` is the exact
value `(I - E) / I * 100`. -/
theorem getSummary_savingsRate (transactions : List Transaction) :
    (JSNum.gt (getSummary transactions).income 0 = false →
      (getSummary transactions).savingsRate = JSNum.fin 0) ∧
    (JSNum.gt (getSummary transactions).income 0 = true →
      (getSummary transactions).savingsRate
        = (getSummary transactions).balance / (getSummary transactions).income
            * JSNum.fin 100) ∧
    (∀ I E : ℚ, (getSummary transactions).income = JSNum.fin I →
      (getSummary transactions).expense = JSNum.fin E → 0 < I →
      (getSummary transactions).savingsRate = JSNum.fin ((I - E) / I * 100)) := by
  refine ⟨?_, ?_, ?_⟩
  · intro h
    simp only [getSummary] at h ⊢
    rw [if_neg (by rw [h]; exact Bool.false_ne_true)]
    rfl
  · intro h
    simp only [getSummary] at h ⊢
    rw [if_pos h]
  · intro I E hI hE hpos
    simp only [getSummary] at hI hE ⊢
    rw [hI, hE]
    have hgt : JSNum.gt (JSNum.fin I) 0 = true := by
      simp [JSNum.gt, JSNum.zero_def, hpos]
    rw [if_pos hgt, JSNum.fin_sub_fin, JSNum.fin_div_fin _ _ (ne_of_gt hpos)]
    rfl

/-- Witness for C2: the example ledger, with income 1000 and expense 700. -/
theorem getSummary_savingsRate_witness :
    (getSummary exampleLedger).savingsRate = JSNum.fin ((1000 - 700) / 1000 * 100) :=
  (getSummary_savingsRate exampleLedger).2.2 1000 700 (by decide!) (by decide!) (by norm_num)

/-! ## Deleting -/

/-- C3: deleting an id that no transaction of the ledger carries leaves the list as it
is, same entries in the same order; the operation is total. -/
theorem deleteTransaction_absent (transactions : List Transaction) (id : Int)
    (h : ∀ t ∈ transactions, t.id ≠ id) :
    deleteTransaction transactions id = transactions := by
  unfold deleteTransaction
  rw [List.filter_eq_self]
  intro t ht
  simpa using h t ht

/-- Witness for C3: id 7 is carried by no transaction of the example ledger. -/
theorem deleteTransaction_absent_witness :
    deleteTransaction exampleLedger 7 = exampleLedger :=
  deleteTransaction_absent exampleLedger 7 (by decide)

/-! ## Monthly summaries -/

theorem keys_set {α : Type} (obj : JSObj α) (key : String) (v : α) :
    (obj.set key v).map Prod.fst
      = if key ∈ obj.map Prod.fst then obj.map Prod.fst else obj.map Prod.fst ++ [key] := by
  induction obj with
  | nil => simp [JSObj.set]
  | cons e rest ih =>
      obtain ⟨k, w⟩ := e
      by_cases hk : k = key
      · simp [JSObj.set, hk]
      · have hk2 : ¬ key = k := fun h => hk h.symm
        by_cases hmem : key ∈ List.map Prod.fst rest
        · simp only [JSObj.set, if_neg hk, List.map_cons, ih, if_pos hmem]
          simp [hmem]
        · simp only [JSObj.set, if_neg hk, List.map_cons, ih, if_neg hmem]
          simp [hk2, hmem]

theorem nodup_keys_set {α : Type} (obj : JSObj α) (key : String) (v : α)
    (h : (obj.map Prod.fst).Nodup) : ((obj.set key v).map Prod.fst).Nodup := by
  rw [keys_set]
  split
  · exact h
  · rename_i hmem
    rw [List.nodup_append]
    refine ⟨h, List.nodup_singleton _, ?_⟩
    intro a ha hb
    rw [List.mem_singleton] at hb
    exact hmem (hb ▸ ha)

theorem nodup_keys_monthlyStep (tza : LocalTZA) (ty : String) (buckets : JSObj JSNum)
    (t : Transaction) (h : (buckets.map Prod.fst).Nodup) :
    ((monthlyStep tza ty buckets t).map Prod.fst).Nodup := by
  unfold monthlyStep
  split
  · exact h
  · split
    · exact h
    · exact nodup_keys_set _ _ _ h

theorem nodup_keys_foldl_monthlyStep (tza : LocalTZA) (ty : String) (ts : List Transaction)
    (buckets : JSObj JSNum) (h : (buckets.map Prod.fst).Nodup) :
    ((ts.foldl (monthlyStep tza ty) buckets).map Prod.fst).Nodup := by
  induction ts generalizing buckets with
  | nil => exact h
  | cons t ts ih => exact ih _ (nodup_keys_monthlyStep tza ty buckets t h)

theorem sortInsert_perm {α : Type} (cmp : α → α → Int) (x : α) (l : List α) :
    (sortInsert cmp x l).Perm (x :: l) := by
  induction l with
  | nil => exact List.Perm.refl _
  | cons y ys ih =>
      unfold sortInsert
      split
      · exact List.Perm.refl _
      · exact (List.Perm.cons y ih).trans (List.Perm.swap x y ys)

theorem jsSort_perm {α : Type} (cmp : α → α → Int) (l : List α) :
    (jsSort cmp l).Perm l := by
  induction l with
  | nil => exact List.Perm.refl _
  | cons x xs ih =>
      unfold jsSort
      exact (sortInsert_perm cmp x _).trans (List.Perm.cons x ih)

theorem compareMonth_neg_iff (a b : Bucket) : compareMonth a b < 0 ↔ a.month ≤ b.month := by
  unfold compareMonth
  by_cases h : a.month > b.month
  · rw [if_pos h]
    constructor
    · intro h0
      omega
    · intro hle
      exact absurd h (not_lt.mpr hle)
  · rw [if_neg h]
    constructor
    · intro _
      exact not_lt.mp h
    · intro _
      omega

theorem sortInsert_sorted (x : Bucket) (l : List Bucket)
    (h : l.Pairwise (fun a b => a.month ≤ b.month)) :
    (sortInsert compareMonth x l).Pairwise (fun a b => a.month ≤ b.month) := by
  induction l with
  | nil => simp [sortInsert]
  | cons y ys ih =>
      rw [List.pairwise_cons] at h
      unfold sortInsert
      split
      · rename_i hlt
        have hxy : x.month ≤ y.month := (compareMonth_neg_iff x y).mp hlt
        rw [List.pairwise_cons, List.pairwise_cons]
        refine ⟨?_, h.1, h.2⟩
        intro z hz
        rw [List.mem_cons] at hz
        rcases hz with rfl | hz
        · exact hxy
        · exact le_trans hxy (h.1 z hz)
      · rename_i hlt
        have hyx : y.month ≤ x.month := by
          rw [compareMonth_neg_iff] at hlt
          exact le_of_lt (not_le.mp hlt)
        rw [List.pairwise_cons]
        refine ⟨?_, ih h.2⟩
        intro z hz
        have hz2 : z ∈ x :: ys := (sortInsert_perm compareMonth x ys).mem_iff.mp hz
        rw [List.mem_cons] at hz2
        rcases hz2 with rfl | hz2
        · exact hyx
        · exact h.1 z hz2

theorem jsSort_sorted (l : List Bucket) :
    (jsSort compareMonth l).Pairwise (fun a b => a.month ≤ b.month) := by
  induction l with
  | nil => simp [jsSort]
  | cons x xs ih =>
      unfold jsSort
      exact sortInsert_sorted x _ ih

theorem monthlySummary_keys_nodup (tza : LocalTZA) (ty : String) (ts : List Transaction) :
    ((monthlySummary tza ty ts).map (fun b => b.month)).Nodup := by
  unfold monthlySummary
  have hperm := (jsSort_perm compareMonth
    ((ts.foldl (monthlyStep tza ty) []).map (fun e => ({ month := e.1, total := e.2 } : Bucket)))).map
      (fun b => b.month)
  rw [hperm.nodup_iff, List.map_map]
  have h := nodup_keys_foldl_monthlyStep tza ty ts [] (by simp)
  exact h

theorem monthlySummary_strictly_ascending (tza : LocalTZA) (ty : String)
    (ts : List Transaction) :
    ((monthlySummary tza ty ts).map (fun b => b.month)).Pairwise (fun a b => a < b) := by
  have hnd := monthlySummary_keys_nodup tza ty ts
  have hs : ((monthlySummary tza ty ts).map (fun b => b.month)).Pairwise (fun a b => a ≤ b) := by
    rw [List.pairwise_map]
    exact jsSort_sorted _
  exact (hs.and hnd).imp (fun h => lt_of_le_of_ne h.1 h.2)

/-- C4: the buckets returned by `getMonthlyExpenseSummary` and by
`getMonthlyIncomeSummary` are strictly ascending by month key, in every time zone and
for every transaction list: sorted ascending, and no month key occurs twice. -/
theorem monthly_summaries_strictly_ascending (tza : LocalTZA)
    (transactions : List Transaction) :
    (((getMonthlyExpenseSummary tza transactions).map (fun b => b.month)).Pairwise
        (fun a b => a < b) ∧
      ((getMonthlyExpenseSummary tza transactions).map (fun b => b.month)).Nodup) ∧
    (((getMonthlyIncomeSummary tza transactions).map (fun b => b.month)).Pairwise
        (fun a b => a < b) ∧
      ((getMonthlyIncomeSummary tza transactions).map (fun b => b.month)).Nodup) :=
  ⟨⟨monthlySummary_strictly_ascending tza "expense" transactions,
      monthlySummary_keys_nodup tza "expense" transactions⟩,
    ⟨monthlySummary_strictly_ascending tza "income" transactions,
      monthlySummary_keys_nodup tza "income" transactions⟩⟩

/-! ## The example ledger -/

/-- The summary of the example ledger, and its monthly expense buckets in UTC. -/
theorem exampleLedger_utc :
    getSummary exampleLedger
      = { income := JSNum.fin 1000, expense := JSNum.fin 700, balance := JSNum.fin 300,
          savingsRate := JSNum.fin 30 } ∧
    getMonthlyExpenseSummary utc exampleLedger
      = [{ month := "2024-01", total := JSNum.fin 400 },
         { month := "2024-02", total := JSNum.fin 300 }] := by
  decide!

theorem localYearMonth_of_midnight (tza : LocalTZA) (day : Int)
    (h0 : 0 ≤ tza (day * msPerDay)) (h1 : tza (day * msPerDay) < msPerDay) :
    localYearMonth tza (day * msPerDay) = civilFromDays day := by
  unfold localYearMonth
  congr 1
  have hpos : (0 : Int) < msPerDay := by decide
  rw [Int.add_comm, Int.add_mul_ediv_right _ _ (ne_of_gt hpos),
    Int.ediv_eq_zero_of_lt h0 h1, Int.zero_add]

/-- In every time zone at or east of UTC (offset from 0 to less than a day) the monthly
expense buckets of the example ledger are those of the dates as written. -/
theorem exampleLedger_east_of_utc (tza : LocalTZA)
    (h : ∀ t, 0 ≤ tza t ∧ tza t < msPerDay) :
    getMonthlyExpenseSummary tza exampleLedger
      = [{ month := "2024-01", total := JSNum.fin 400 },
         { month := "2024-02", total := JSNum.fin 300 }] := by
  have k1 : monthKey tza (IsoDate.epochDay ⟨2024, 1, 15⟩ * msPerDay) = "2024-01" := by
    unfold monthKey
    rw [localYearMonth_of_midnight tza _ (h _).1 (h _).2]
    decide
  have k2 : monthKey tza (IsoDate.epochDay ⟨2024, 2, 1⟩ * msPerDay) = "2024-02" := by
    unfold monthKey
    rw [localYearMonth_of_midnight tza _ (h _).1 (h _).2]
    decide
  have v1 : IsoDate.valid ⟨2024, 1, 15⟩ = true := by decide
  have v2 : IsoDate.valid ⟨2024, 2, 1⟩ = true := by decide
  simp [getMonthlyExpenseSummary, monthlySummary, exampleLedger, mkTx, monthlyStep,
    DateVal.isTruthy, DateVal.time, IsoDate.parse, v1, v2, k1, k2, JSObj.get, JSObj.set,
    jsSort, sortInsert, compareMonth, JSVal.or, JSVal.isTruthy, JSNum.truthy,
    JSVal.toNumber, JSNum.zero_def]
  decide

/-- C5: five hours west of UTC, `getMonthlyExpenseSummary` puts both expenses of the
example ledger, the one dated 2024-02-01 included, in the single bucket "2024-01" with
total 700, which is not the pair of buckets the claim states. -/
theorem exampleLedger_west_of_utc :
    getMonthlyExpenseSummary utcMinus5 exampleLedger
      = [{ month := "2024-01", total := JSNum.fin 700 }] ∧
    getMonthlyExpenseSummary utcMinus5 exampleLedger
      ≠ [{ month := "2024-01", total := JSNum.fin 400 },
         { month := "2024-02", total := JSNum.fin 300 }] := by
  decide!

/-! ## Goal evaluation -/

theorem ofRat_ne_nan (q : ℚ) : JSNum.ofRat q ≠ JSNum.nan := by
  unfold JSNum.ofRat
  split
  · exact fun h => JSNum.noConfusion h
  · split
    · split
      · exact fun h => JSNum.noConfusion h
      · exact fun h => JSNum.noConfusion h
    · exact fun h => JSNum.noConfusion h

theorem round_ne_nan (a : JSNum) (h : a ≠ JSNum.nan) : JSNum.round a ≠ JSNum.nan := by
  cases a with
  | fin q => exact ofRat_ne_nan q
  | nan => exact absurd rfl h
  | pinf => exact fun h2 => JSNum.noConfusion h2
  | ninf => exact fun h2 => JSNum.noConfusion h2

theorem div_ne_nan (m : ℚ) (x : JSNum) (hm : m ≠ 0) (hx : x ≠ JSNum.nan) :
    JSNum.fin m / x ≠ JSNum.nan := by
  cases x with
  | fin b =>
      show JSNum.div (JSNum.fin m) (JSNum.fin b) ≠ JSNum.nan
      unfold JSNum.div
      by_cases hb : b = 0
      · simp only [hb, if_true, hm, if_false, JSNum.infOfSign]
        split
        · exact fun h => JSNum.noConfusion h
        · exact fun h => JSNum.noConfusion h
      · simp only [hb, if_false]
        exact fun h => JSNum.noConfusion h
  | nan => exact absurd rfl hx
  | pinf => exact fun h => JSNum.noConfusion h
  | ninf => exact fun h => JSNum.noConfusion h

theorem ge_false_iff_gt (r : JSNum) (t : ℚ) (hr : r ≠ JSNum.nan) :
    JSNum.ge r (JSNum.fin t) = false ↔ JSNum.gt (JSNum.fin t) r = true := by
  cases r with
  | fin x => simp [JSNum.ge, JSNum.gt]
  | nan => exact absurd rfl hr
  | pinf => simp [JSNum.ge, JSNum.gt]
  | ninf => simp [JSNum.ge, JSNum.gt]

theorem ge_of_ge (r : JSNum) (t1 t2 : ℚ) (h12 : t2 ≤ t1)
    (h : JSNum.ge r (JSNum.fin t1) = true) : JSNum.ge r (JSNum.fin t2) = true := by
  cases r with
  | fin x =>
      simp only [JSNum.ge, decide_eq_true_eq] at h ⊢
      exact le_trans h12 h
  | nan => simp [JSNum.ge] at h
  | pinf => simp [JSNum.ge]
  | ninf => simp [JSNum.ge] at h

theorem ge_self_fin (t : ℚ) : JSNum.ge (JSNum.fin t) (JSNum.fin t) = true := by
  simp [JSNum.ge]

theorem literal_twelve_tenths :
    JSNum.ofRat (12 / 10) = JSNum.fin (5404319552844595 / 4503599627370496) := by
  decide!

theorem literal_seven_tenths :
    JSNum.ofRat (7 / 10) = JSNum.fin (3152519739159347 / 4503599627370496) := by
  decide!

theorem goalFeedbackD_of_ratio (s : Summary) (amount months : JSNum) (m : ℚ)
    (hms : monthlySavingsD s = JSNum.fin m) (hm : 0 < m) :
    goalFeedbackD s amount months
      = if JSNum.ge (JSNum.divD (monthlySavingsD s) (JSNum.divD amount months))
            (JSNum.ofRat (12 / 10)) = true then GoalFeedback.comfortable
        else if JSNum.ge (JSNum.divD (monthlySavingsD s) (JSNum.divD amount months))
            (JSNum.ofRat (7 / 10)) = true then GoalFeedback.tight
        else GoalFeedback.infeasibleAtCurrentRate := by
  have hle : JSNum.le (monthlySavingsD s) 0 = false := by
    rw [hms]
    simp [JSNum.le, JSNum.ge, JSNum.zero_def, hm]
  unfold goalFeedbackD
  simp only [hle, Bool.false_eq_true, if_false]

/-- C6, counterexample: two goals whose savings equal, as doubles, the required
savings per month times the threshold, and which land in the lower tier.  For the goal
of 323 over 3 months and savings of 129.2, `requiredPerMonth * 1.2` is 129.2 and the
feedback is tight; for the goal of 3 over 1 month and savings of `3 * 0.7`, the
feedback is infeasible at the current rate. -/
theorem goalFeedbackD_product_boundary :
    (monthlySavingsD (getSummaryD (incomeLedger (JSNum.ofRat (1292 / 10))))
        = JSNum.mulD (JSNum.divD (JSNum.fin 323) (JSNum.fin 3)) (JSNum.ofRat (12 / 10)) ∧
      handleGoalEvaluationD (incomeLedger (JSNum.ofRat (1292 / 10))) (JSNum.fin 323)
        (JSNum.fin 3) = GoalFeedback.tight) ∧
    (monthlySavingsD (getSummaryD
          (incomeLedger (JSNum.mulD (JSNum.fin 3) (JSNum.ofRat (7 / 10)))))
        = JSNum.mulD (JSNum.divD (JSNum.fin 3) (JSNum.fin 1)) (JSNum.ofRat (7 / 10)) ∧
      handleGoalEvaluationD (incomeLedger (JSNum.mulD (JSNum.fin 3) (JSNum.ofRat (7 / 10))))
        (JSNum.fin 3) (JSNum.fin 1) = GoalFeedback.infeasibleAtCurrentRate) := by
  decide!

/-- C6, amended: for a summary with income `I > 0` and finite monthly savings `m > 0`,
and a goal with amount `A > 0` over `M > 0` months, the feedback is decided by the
double `r` that the code computes for `monthlySavings / (amount / months)`, against the
doubles that the literals `1.2` and `0.7` denote: comfortable iff `r >= 1.2`, tight iff
`0.7 <= r < 1.2`, infeasible at the current rate iff `r < 0.7`.  A computed ratio equal
to `1.2` is comfortable and one equal to `0.7` is tight; this is the case when the
savings are, as real numbers, `1.2` times (`0.7` times) the required savings per
month.  The ledger with income 2000 and expense 1200 and the goal of 12000 in 12
months give tight. -/
theorem goalFeedbackD_tiers :
    (∀ (s : Summary) (I A M m : ℚ) (r : JSNum), s.income = JSNum.fin I → 0 < I →
      monthlySavingsD s = JSNum.fin m → 0 < m → 0 < A → 0 < M →
      r = JSNum.divD (monthlySavingsD s) (JSNum.divD (JSNum.fin A) (JSNum.fin M)) →
      (goalFeedbackD s (JSNum.fin A) (JSNum.fin M) = GoalFeedback.comfortable
          ↔ JSNum.ge r (JSNum.ofRat (12 / 10)) = true) ∧
      (goalFeedbackD s (JSNum.fin A) (JSNum.fin M) = GoalFeedback.tight
          ↔ JSNum.ge r (JSNum.ofRat (7 / 10)) = true ∧
            JSNum.gt (JSNum.ofRat (12 / 10)) r = true) ∧
      (goalFeedbackD s (JSNum.fin A) (JSNum.fin M) = GoalFeedback.infeasibleAtCurrentRate
          ↔ JSNum.gt (JSNum.ofRat (7 / 10)) r = true) ∧
      (r = JSNum.ofRat (12 / 10) →
        goalFeedbackD s (JSNum.fin A) (JSNum.fin M) = GoalFeedback.comfortable) ∧
      (r = JSNum.ofRat (7 / 10) →
        goalFeedbackD s (JSNum.fin A) (JSNum.fin M) = GoalFeedback.tight) ∧
      (∀ q : ℚ, JSNum.divD (JSNum.fin A) (JSNum.fin M) = JSNum.fin q → q ≠ 0 →
        (m = q * (12 / 10) →
          goalFeedbackD s (JSNum.fin A) (JSNum.fin M) = GoalFeedback.comfortable) ∧
        (m = q * (7 / 10) →
          goalFeedbackD s (JSNum.fin A) (JSNum.fin M) = GoalFeedback.tight))) ∧
    handleGoalEvaluationD goalLedger (JSNum.fin 12000) (JSNum.fin 12) = GoalFeedback.tight := by
  constructor
  · intro s I A M m r _ _ hms hm _ _ hr
    have h12 : (3152519739159347 / 4503599627370496 : ℚ)
        ≤ 5404319552844595 / 4503599627370496 := by norm_num
    have hreq : JSNum.divD (JSNum.fin A) (JSNum.fin M) ≠ JSNum.nan := by
      unfold JSNum.divD
      exact round_ne_nan _ (div_ne_nan A (JSNum.fin M) (ne_of_gt ‹0 < A›)
        (fun h => JSNum.noConfusion h))
    have hrn : r ≠ JSNum.nan := by
      rw [hr, hms]
      unfold JSNum.divD at hreq ⊢
      exact round_ne_nan _ (div_ne_nan m _ (ne_of_gt hm) hreq)
    have hfb := goalFeedbackD_of_ratio s (JSNum.fin A) (JSNum.fin M) m hms hm
    rw [← hr] at hfb
    have hcomf : JSNum.ge r (JSNum.ofRat (12 / 10)) = true →
        goalFeedbackD s (JSNum.fin A) (JSNum.fin M) = GoalFeedback.comfortable := by
      intro h
      rw [hfb, if_pos h]
    have hge2 : JSNum.ge r (JSNum.ofRat (12 / 10)) = true →
        JSNum.ge r (JSNum.ofRat (7 / 10)) = true := by
      rw [literal_twelve_tenths, literal_seven_tenths]
      exact ge_of_ge r _ _ h12
    have hlt1 : JSNum.ge r (JSNum.ofRat (12 / 10)) = false
        ↔ JSNum.gt (JSNum.ofRat (12 / 10)) r = true := by
      rw [literal_twelve_tenths]
      exact ge_false_iff_gt r _ hrn
    have hlt2 : JSNum.ge r (JSNum.ofRat (7 / 10)) = false
        ↔ JSNum.gt (JSNum.ofRat (7 / 10)) r = true := by
      rw [literal_seven_tenths]
      exact ge_false_iff_gt r _ hrn
    have htight : JSNum.ge r (JSNum.ofRat (7 / 10)) = true →
        JSNum.ge r (JSNum.ofRat (12 / 10)) = false →
        goalFeedbackD s (JSNum.fin A) (JSNum.fin M) = GoalFeedback.tight := by
      intro h7 h12f
      rw [hfb, if_neg (by rw [h12f]; exact Bool.false_ne_true), if_pos h7]
    have hself12 : JSNum.ge (JSNum.ofRat (12 / 10)) (JSNum.ofRat (12 / 10)) = true := by
      rw [literal_twelve_tenths]
      exact ge_self_fin _
    have hself7 : JSNum.ge (JSNum.ofRat (7 / 10)) (JSNum.ofRat (7 / 10)) = true := by
      rw [literal_seven_tenths]
      exact ge_self_fin _
    have hnot12 : JSNum.ge (JSNum.ofRat (7 / 10)) (JSNum.ofRat (12 / 10)) = false := by
      decide!
    have hexact : ∀ q t : ℚ, JSNum.divD (JSNum.fin A) (JSNum.fin M) = JSNum.fin q → q ≠ 0 →
        m = q * t → r = JSNum.ofRat t := by
      intro q t hq hq0 hmq
      rw [hr, hms, hq]
      unfold JSNum.divD
      rw [JSNum.fin_div_fin m q hq0, hmq, mul_comm, mul_div_assoc, div_self hq0, mul_one]
      rfl
    refine ⟨?_, ?_, ?_, ?_, ?_, ?_⟩
    · constructor
      · intro h
        rw [hfb] at h
        by_contra hc
        rw [if_neg hc] at h
        split at h <;> exact GoalFeedback.noConfusion h
      · exact hcomf
    · constructor
      · intro h
        rw [hfb] at h
        by_cases h1 : JSNum.ge r (JSNum.ofRat (12 / 10)) = true
        · rw [if_pos h1] at h
          exact GoalFeedback.noConfusion h
        · rw [if_neg h1] at h
          have h1f : JSNum.ge r (JSNum.ofRat (12 / 10)) = false := by
            cases hb : JSNum.ge r (JSNum.ofRat (12 / 10))
            · rfl
            · exact absurd hb h1
          by_cases h2 : JSNum.ge r (JSNum.ofRat (7 / 10)) = true
          · exact ⟨h2, hlt1.mp h1f⟩
          · rw [if_neg h2] at h
            exact GoalFeedback.noConfusion h
      · intro h
        exact htight h.1 (hlt1.mpr h.2)
    · constructor
      · intro h
        rw [hfb] at h
        by_cases h1 : JSNum.ge r (JSNum.ofRat (12 / 10)) = true
        · rw [if_pos h1] at h
          exact GoalFeedback.noConfusion h
        · rw [if_neg h1] at h
          by_cases h2 : JSNum.ge r (JSNum.ofRat (7 / 10)) = true
          · rw [if_pos h2] at h
            exact GoalFeedback.noConfusion h
          · have h2f : JSNum.ge r (JSNum.ofRat (7 / 10)) = false := by
              cases hb : JSNum.ge r (JSNum.ofRat (7 / 10))
              · rfl
              · exact absurd hb h2
            exact hlt2.mp h2f
      · intro h
        have h2f := hlt2.mpr h
        have h1 : ¬ JSNum.ge r (JSNum.ofRat (12 / 10)) = true := by
          intro hc
          rw [hge2 hc] at h2f
          exact Bool.noConfusion h2f
        rw [hfb, if_neg h1, if_neg (by rw [h2f]; exact Bool.false_ne_true)]
    · intro h
      apply hcomf
      rw [h]
      exact hself12
    · intro h
      apply htight
      · rw [h]
        exact hself7
      · rw [h]
        exact hnot12
    · intro q hq hq0
      constructor
      · intro hmq
        apply hcomf
        rw [hexact q _ hq hq0 hmq]
        exact hself12
      · intro hmq
        apply htight
        · rw [hexact q _ hq hq0 hmq]
          exact hself7
        · rw [hexact q _ hq hq0 hmq]
          exact hnot12
  · decide!

/-- Witness for C6: the ledger with income 2000 and expense 1200, goal 12000 over 12
months, where the computed ratio is the double 0.8. -/
theorem goalFeedbackD_tiers_witness :
    goalFeedbackD (getSummaryD goalLedger) (JSNum.fin 12000) (JSNum.fin 12)
      = GoalFeedback.tight :=
  ((goalFeedbackD_tiers.1 (getSummaryD goalLedger) 2000 12000 12 800
      (JSNum.divD (monthlySavingsD (getSummaryD goalLedger))
        (JSNum.divD (JSNum.fin 12000) (JSNum.fin 12)))
      (by decide!) (by norm_num) (by decide!) (by norm_num) (by norm_num) (by norm_num)
      rfl).2.1).mpr ⟨by decide!, by decide!⟩


theorem le_zero_of_gt_false (a : JSNum) (h : JSNum.le a 0 = true) : JSNum.gt a 0 = false := by
  cases a with
  | fin q =>
      simp only [JSNum.le, JSNum.ge, JSNum.zero_def, decide_eq_true_eq] at h
      simp [JSNum.gt, JSNum.zero_def, h]
  | nan => rfl
  | pinf => simp [JSNum.le, JSNum.ge, JSNum.zero_def] at h
  | ninf => rfl

/-- C7: whatever the goal's amount and months, a summary with income at most 0, or
with income minus expense at most 0, gets the "needs more income or lower expenses"
feedback and none of the three tiers.  The monthly savings are income minus expense
when income is positive and 0 otherwise, and as soon as they are at most 0 the feedback
is that one, for every amount and months. -/
theorem goalFeedback_no_savings (s : Summary) (amount months : JSNum)
    (h : JSNum.le s.income 0 = true ∨ JSNum.le (s.income - s.expense) 0 = true) :
    goalFeedback s amount months = GoalFeedback.needsMoreIncomeOrLowerExpenses ∧
    (JSNum.gt s.income 0 = true → monthlySavings s = s.income - s.expense) ∧
    (JSNum.gt s.income 0 = false → monthlySavings s = 0) ∧
    (∀ (s2 : Summary) (amount2 months2 : JSNum), JSNum.le (monthlySavings s2) 0 = true →
      goalFeedback s2 amount2 months2 = GoalFeedback.needsMoreIncomeOrLowerExpenses) := by
  have hgen : ∀ (s2 : Summary) (amount2 months2 : JSNum),
      JSNum.le (monthlySavings s2) 0 = true →
      goalFeedback s2 amount2 months2 = GoalFeedback.needsMoreIncomeOrLowerExpenses := by
    intro s2 amount2 months2 h2
    unfold goalFeedback
    simp only [h2, if_true]
  have hms : JSNum.le (monthlySavings s) 0 = true := by
    unfold monthlySavings
    by_cases hg : JSNum.gt s.income 0 = true
    · rw [if_pos hg]
      rcases h with h | h
      · rw [le_zero_of_gt_false _ h] at hg
        exact absurd hg Bool.false_ne_true
      · exact h
    · rw [if_neg hg]
      decide
  refine ⟨hgen s amount months hms, ?_, ?_, hgen⟩
  · intro hg
    unfold monthlySavings
    rw [if_pos hg]
  · intro hg
    unfold monthlySavings
    rw [if_neg (by rw [hg]; exact Bool.false_ne_true)]

/-- Witness for C7: a ledger with income 1000 and expense 1500, with a goal of amount
0 and months `NaN`. -/
theorem goalFeedback_no_savings_witness :
    goalFeedback (getSummary deficitLedger) (JSNum.fin 0) JSNum.nan
      = GoalFeedback.needsMoreIncomeOrLowerExpenses :=
  (goalFeedback_no_savings (getSummary deficitLedger) (JSNum.fin 0) JSNum.nan
      (Or.inr (by decide!))).1

theorem roundMagnitude_nonneg (n d : Nat) : 0 ≤ roundMagnitude n d := by
  unfold roundMagnitude
  positivity

theorem round_le_zero (x : JSNum) (h : JSNum.le x 0 = true) :
    JSNum.le (JSNum.round x) 0 = true := by
  cases x with
  | fin q =>
      simp only [JSNum.le, JSNum.ge, JSNum.zero_def, decide_eq_true_eq] at h
      show JSNum.le (JSNum.ofRat q) 0 = true
      unfold JSNum.ofRat
      have hnp : ¬ (0 < q) := not_lt.mpr h
      by_cases hq : q = 0
      · simp [hq, JSNum.le, JSNum.ge, JSNum.zero_def]
      · simp only [hq, if_false, hnp]
        split
        · rfl
        · simp only [JSNum.le, JSNum.ge, JSNum.zero_def, decide_eq_true_eq]
          have := roundMagnitude_nonneg q.num.natAbs q.den
          linarith
  | nan => simp [JSNum.le, JSNum.ge, JSNum.zero_def] at h
  | pinf => simp [JSNum.le, JSNum.ge, JSNum.zero_def] at h
  | ninf => rfl

/-- The early return of `handleGoalEvaluation` in double arithmetic: rounding keeps the
sign of the difference, so a summary with income at most 0, or with income minus
expense at most 0, gets the "needs more income or lower expenses" feedback there too,
for every amount and months. -/
theorem goalFeedbackD_no_savings (s : Summary) (amount months : JSNum)
    (h : JSNum.le s.income 0 = true ∨ JSNum.le (s.income - s.expense) 0 = true) :
    goalFeedbackD s amount months = GoalFeedback.needsMoreIncomeOrLowerExpenses := by
  have hms : JSNum.le (monthlySavingsD s) 0 = true := by
    unfold monthlySavingsD
    by_cases hg : JSNum.gt s.income 0 = true
    · rw [if_pos hg]
      rcases h with h | h
      · rw [le_zero_of_gt_false _ h] at hg
        exact absurd hg Bool.false_ne_true
      · exact round_le_zero _ h
    · rw [if_neg hg]
      decide
  unfold goalFeedbackD
  simp only [hms, if_true]

/-! ## Habits -/

theorem get_set_same {α : Type} (obj : JSObj α) (key : String) (v : α) :
    (obj.set key v).get key = some v := by
  induction obj with
  | nil => simp [JSObj.set, JSObj.get]
  | cons e rest ih =>
      obtain ⟨k, w⟩ := e
      by_cases hk : k = key
      · simp [JSObj.set, JSObj.get, hk]
      · simp [JSObj.set, JSObj.get, hk, ih]

/-- C8: marking a habit done twice with the same `today` gives the same habit map as
marking it once, for every habit map, habit id and date: the second call changes no
streak and no `lastDone`. -/
theorem markHabitDoneToday_idempotent (today : IsoDate) (habits : JSObj Habit)
    (habitId : String) :
    markHabitDoneToday today (markHabitDoneToday today habits habitId) habitId
      = markHabitDoneToday today habits habitId := by
  by_cases h : (match habits.get habitId with
      | some h => h
      | none => ({ streak := 0, lastDone := DateVal.falsy } : Habit)).lastDone
        = DateVal.iso today
  · have h1 : markHabitDoneToday today habits habitId = habits := by
      unfold markHabitDoneToday
      simp only [h, if_true]
    rw [h1, h1]
  · have h1 : ∃ s, markHabitDoneToday today habits habitId
        = habits.set habitId { streak := s, lastDone := DateVal.iso today } := by
      unfold markHabitDoneToday
      simp only [h, if_false]
      exact ⟨_, rfl⟩
    obtain ⟨s, hs⟩ := h1
    rw [hs]
    unfold markHabitDoneToday
    simp only [get_set_same, if_true]

theorem diff_le_iff (a b : Int) :
    JSNum.le ((getTime (some (a * msPerDay)) - getTime (some (b * msPerDay)))
        / JSNum.fin msPerDay) (JSNum.fin (3 / 2)) = decide (a - b ≤ 1) := by
  have hms : ((msPerDay : Int) : ℚ) ≠ 0 := by
    unfold msPerDay
    norm_num
  simp only [getTime, JSNum.fin_sub_fin, JSNum.fin_div_fin _ _ hms, JSNum.le, JSNum.ge]
  have hq : (((a * msPerDay : Int) : ℚ) - ((b * msPerDay : Int) : ℚ)) / ((msPerDay : Int) : ℚ)
      = ((a - b : Int) : ℚ) := by
    push_cast
    field_simp
    ring
  rw [hq, decide_eq_decide]
  constructor
  · intro h
    by_contra hle
    have h2 : (2 : Int) ≤ a - b := by omega
    have h3 : ((2 : Int) : ℚ) ≤ ((a - b : Int) : ℚ) := by exact_mod_cast h2
    have h5 : ((2 : Int) : ℚ) ≤ 3 / 2 := le_trans h3 h
    norm_num at h5
  · intro hle
    have h1 : ((a - b : Int) : ℚ) ≤ ((1 : Int) : ℚ) := by exact_mod_cast hle
    have h2 : (((1 : Int) : ℚ)) ≤ 3 / 2 := by norm_num
    exact le_trans h1 h2

theorem markHabitDoneToday_of_date (today d : IsoDate) (habits : JSObj Habit)
    (habitId : String) (s : Int) (hToday : today.valid = true) (hd : d.valid = true)
    (hget : habits.get habitId = some { streak := s, lastDone := DateVal.iso d })
    (hne : d ≠ today) :
    markHabitDoneToday today habits habitId
      = habits.set habitId
          { streak := if today.epochDay - d.epochDay ≤ 1 then s + 1 else 1,
            lastDone := DateVal.iso today } := by
  unfold markHabitDoneToday
  have hne2 : ¬ DateVal.iso d = DateVal.iso today := by
    intro h
    exact hne (DateVal.iso.inj h)
  simp only [hget, hne2, if_false, DateVal.isTruthy, if_true, DateVal.time, IsoDate.parse,
    hToday, hd, diff_le_iff, decide_eq_true_eq]

/-- C9: for a habit whose `lastDone` is a date `d` and whose streak is `s`, marking it
done on the calendar day after `d` sets the streak to `s + 1`; marking it done two or
more days after `d` (three days after `d` included) sets the streak to 1; for a habit
with no `lastDone` (no entry, or an entry whose `lastDone` is null) the streak is set
to 1; in each case `lastDone` becomes today. -/
theorem markHabitDoneToday_streak (today : IsoDate) (habits : JSObj Habit) (habitId : String)
    (hToday : today.valid = true) :
    (∀ (s : Int) (d : IsoDate),
      habits.get habitId = some { streak := s, lastDone := DateVal.iso d } →
      d.valid = true → today.epochDay = d.epochDay + 1 →
      (markHabitDoneToday today habits habitId).get habitId
        = some { streak := s + 1, lastDone := DateVal.iso today }) ∧
    (∀ (s : Int) (d : IsoDate),
      habits.get habitId = some { streak := s, lastDone := DateVal.iso d } →
      d.valid = true → d.epochDay + 2 ≤ today.epochDay →
      (markHabitDoneToday today habits habitId).get habitId
        = some { streak := 1, lastDone := DateVal.iso today }) ∧
    ((habits.get habitId = none ∨
        ∃ s : Int, habits.get habitId = some { streak := s, lastDone := DateVal.falsy }) →
      (markHabitDoneToday today habits habitId).get habitId
        = some { streak := 1, lastDone := DateVal.iso today }) := by
  refine ⟨?_, ?_, ?_⟩
  · intro s d hget hd hday
    have hne : d ≠ today := by
      intro h
      rw [h] at hday
      omega
    rw [markHabitDoneToday_of_date today d habits habitId s hToday hd hget hne, get_set_same,
      if_pos (by omega)]
  · intro s d hget hd hday
    have hne : d ≠ today := by
      intro h
      rw [h] at hday
      omega
    rw [markHabitDoneToday_of_date today d habits habitId s hToday hd hget hne, get_set_same,
      if_neg (by omega)]
  · intro h
    rcases h with h | ⟨s, h⟩
    · unfold markHabitDoneToday
      simp [h, DateVal.isTruthy, get_set_same]
    · unfold markHabitDoneToday
      simp [h, DateVal.isTruthy, get_set_same]

/-- Witness for C9: `log_daily` has streak 4 and was last done on 2024-02-27; done on
2024-02-28 the streak is 5, done on 2024-03-01 (three days later, 2024 being a leap
year) it is 1; `review_dashboard`, absent from the map, gets streak 1. -/
theorem markHabitDoneToday_streak_witness :
    (markHabitDoneToday ⟨2024, 2, 28⟩ sampleHabits "log_daily").get "log_daily"
      = some { streak := 4 + 1, lastDone := DateVal.iso ⟨2024, 2, 28⟩ } ∧
    (markHabitDoneToday ⟨2024, 3, 1⟩ sampleHabits "log_daily").get "log_daily"
      = some { streak := 1, lastDone := DateVal.iso ⟨2024, 3, 1⟩ } ∧
    (markHabitDoneToday ⟨2024, 3, 1⟩ sampleHabits "review_dashboard").get "review_dashboard"
      = some { streak := 1, lastDone := DateVal.iso ⟨2024, 3, 1⟩ } :=
  ⟨(markHabitDoneToday_streak ⟨2024, 2, 28⟩ sampleHabits "log_daily" (by decide)).1 4
      ⟨2024, 2, 27⟩ (by decide) (by decide) (by decide),
    (markHabitDoneToday_streak ⟨2024, 3, 1⟩ sampleHabits "log_daily" (by decide)).2.1 4
      ⟨2024, 2, 27⟩ (by decide) (by decide) (by decide),
    (markHabitDoneToday_streak ⟨2024, 3, 1⟩ sampleHabits "review_dashboard" (by decide)).2.2
      (Or.inl (by decide))⟩

/-! ## Net-worth simulation -/

theorem growth_factor (g : ℚ) :
    JSNum.fin 1 + JSNum.fin g / JSNum.fin 100 = JSNum.fin (1 + g / 100) := by
  rw [JSNum.fin_div_fin g 100 (by norm_num), JSNum.fin_add_fin]

theorem projectedNetWorth_succ (I E g h : ℚ) (k : Nat) :
    projectedNetWorth I E g h (k + 1)
      = projectedNetWorth I E g h k + (I * (1 + g / 100) ^ k - E * (1 + h / 100) ^ k) := by
  unfold projectedNetWorth
  rw [Finset.sum_range_succ]

theorem simLoop_from (I E g h : ℚ) (n i : Nat) (points : List Point) :
    simLoop (JSNum.fin g) (JSNum.fin h) n (i + 1) (JSNum.fin (I * (1 + g / 100) ^ i))
        (JSNum.fin (E * (1 + h / 100) ^ i)) (JSNum.fin (projectedNetWorth I E g h (i + 1)))
        points
      = points ++ (List.range' (i + 1) n).map (fun k =>
          ({ month := k + 1, value := JSNum.fin (projectedNetWorth I E g h (k + 1)) } : Point)) := by
  induction n generalizing i points with
  | zero => simp [simLoop]
  | succ n ih =>
      rw [simLoop]
      simp only [Nat.succ_pos, if_true, growth_factor, JSNum.fin_mul_fin, JSNum.fin_sub_fin,
        JSNum.fin_add_fin, gt_iff_lt]
      have hI : I * (1 + g / 100) ^ i * (1 + g / 100) = I * (1 + g / 100) ^ (i + 1) := by
        rw [pow_succ, mul_assoc]
      have hE : E * (1 + h / 100) ^ i * (1 + h / 100) = E * (1 + h / 100) ^ (i + 1) := by
        rw [pow_succ, mul_assoc]
      rw [hI, hE, ← projectedNetWorth_succ, ih (i + 1), List.range'_succ, List.map_cons,
        List.append_assoc]
      rfl

theorem simLoop_from_start (I E g h : ℚ) (n : Nat) :
    simLoop (JSNum.fin g) (JSNum.fin h) n 0 (JSNum.fin I) (JSNum.fin E) 0 []
      = (List.range n).map (fun k =>
          ({ month := k + 1, value := JSNum.fin (projectedNetWorth I E g h (k + 1)) } : Point)) := by
  cases n with
  | zero => simp [simLoop]
  | succ n =>
      rw [simLoop]
      simp only [Nat.lt_irrefl, if_false, JSNum.fin_sub_fin, JSNum.zero_add, gt_iff_lt]
      have h1 : projectedNetWorth I E g h (0 + 1) = I - E := by
        simp [projectedNetWorth]
      have hstep := simLoop_from I E g h n 0
        ([] ++ [({ month := 0 + 1, value := JSNum.fin (I - E) } : Point)])
      simp only [pow_zero, mul_one, h1] at hstep
      rw [hstep, List.range_eq_range', List.range'_succ, List.map_cons, h1]
      rfl

/-- C10: with `months >= 1`, finite growth percentages `g` and `h`, and finite seeds `I`
and `E` (the totals of the latest income and expense buckets, 0 for a type without
data, one of the two summaries being non-empty), `handleSimulatorChange` emits exactly
`months` points, the `k`-th (`k = 1..months`) having month `k` and value the sum over
`j = 0..k-1` of `I*(1+g/100)^j - E*(1+h/100)^j`; with `months = 1` it is the single point
of value `I - E`. -/
theorem handleSimulatorChange_projection (tza : LocalTZA) (transactions : List Transaction)
    (months : Int) (g h I E : ℚ) (hmonths : 1 ≤ months)
    (hdata : ¬ ((getMonthlyIncomeSummary tza transactions).length = 0 ∧
      (getMonthlyExpenseSummary tza transactions).length = 0))
    (hI : lastTotal (getMonthlyIncomeSummary tza transactions) = JSNum.fin I)
    (hE : lastTotal (getMonthlyExpenseSummary tza transactions) = JSNum.fin E) :
    handleSimulatorChange tza transactions months (JSNum.fin g) (JSNum.fin h)
      = (List.range months.toNat).map (fun k =>
          ({ month := k + 1, value := JSNum.fin (projectedNetWorth I E g h (k + 1)) } : Point)) ∧
    ((handleSimulatorChange tza transactions months (JSNum.fin g) (JSNum.fin h)).length : Int)
      = months ∧
    (months = 1 →
      handleSimulatorChange tza transactions months (JSNum.fin g) (JSNum.fin h)
        = [{ month := 1, value := JSNum.fin (I - E) }]) := by
  have hmain : handleSimulatorChange tza transactions months (JSNum.fin g) (JSNum.fin h)
      = (List.range months.toNat).map (fun k =>
          ({ month := k + 1, value := JSNum.fin (projectedNetWorth I E g h (k + 1)) } : Point)) := by
    unfold handleSimulatorChange
    simp only [if_neg hdata, hI, hE]
    exact simLoop_from_start I E g h months.toNat
  refine ⟨hmain, ?_, ?_⟩
  · rw [hmain, List.length_map, List.length_range]
    omega
  · intro h1
    have hP : projectedNetWorth I E g h (0 + 1) = I - E := by
      simp [projectedNetWorth]
    have h3 : (1 : Int).toNat = 1 := rfl
    have h4 : List.range 1 = [0] := rfl
    rw [hmain, h1, h3, h4, List.map_cons, List.map_nil, hP]

/-- Witness for C10: the example ledger in UTC, where the latest income bucket totals
1000 and the latest expense bucket 300, projected over 3 months with growth 5% and 2%. -/
theorem handleSimulatorChange_projection_witness :
    handleSimulatorChange utc exampleLedger 3 (JSNum.fin 5) (JSNum.fin 2)
      = (List.range (3 : Int).toNat).map (fun k =>
          ({ month := k + 1,
             value := JSNum.fin (projectedNetWorth 1000 300 5 2 (k + 1)) } : Point)) :=
  (handleSimulatorChange_projection utc exampleLedger 3 5 2 1000 300 (by decide) (by decide!)
    (by decide!) (by decide!)).1

/-! ## Adding -/

/-- C12, counterexample: two adds made at the same clock reading.  The first, on the
empty ledger, leaves the ids pairwise distinct; the second gives the new entry the id of
the entry already there, and the ids are no longer pairwise distinct. -/
theorem addTransaction_same_reading :
    ((addTransaction 1700000000000 [] (TxData.mk "expense" "Food" (JSVal.num (JSNum.fin 50))
        (DateVal.iso ⟨2024, 1, 15⟩) "")).map (fun t => t.id)).Nodup ∧
    (∃ t ∈ addTransaction 1700000000000 [] (TxData.mk "expense" "Food"
        (JSVal.num (JSNum.fin 50)) (DateVal.iso ⟨2024, 1, 15⟩) ""),
      t.id = (newEntry 1700000000000 (TxData.mk "expense" "Rent" (JSVal.num (JSNum.fin 900))
        (DateVal.iso ⟨2024, 1, 15⟩) "")).id) ∧
    ¬ ((addTransaction 1700000000000
        (addTransaction 1700000000000 [] (TxData.mk "expense" "Food" (JSVal.num (JSNum.fin 50))
          (DateVal.iso ⟨2024, 1, 15⟩) ""))
        (TxData.mk "expense" "Rent" (JSVal.num (JSNum.fin 900))
          (DateVal.iso ⟨2024, 1, 15⟩) "")).map (fun t => t.id)).Nodup := by
  decide

/-- C12, amended: `addTransaction` appends exactly one entry at the end of the list, with
the fields of `tx` and the clock reading as id, and leaves the earlier entries as they
are; when the ids of the ledger are pairwise distinct and the clock reading differs
from each of them, the new id differs from every id already there and the ids stay
pairwise distinct. -/
theorem addTransaction_appends (now : Int) (transactions : List Transaction) (tx : TxData)
    (hids : (transactions.map (fun t => t.id)).Nodup)
    (hfresh : ∀ t ∈ transactions, t.id ≠ now) :
    addTransaction now transactions tx = transactions ++ [newEntry now tx] ∧
    (addTransaction now transactions tx).length = transactions.length + 1 ∧
    (addTransaction now transactions tx).take transactions.length = transactions ∧
    (newEntry now tx).id = now ∧
    (newEntry now tx).type = tx.type ∧ (newEntry now tx).category = tx.category ∧
    (newEntry now tx).amount = tx.amount ∧ (newEntry now tx).date = tx.date ∧
    (newEntry now tx).description = tx.description ∧
    (∀ t ∈ transactions, t.id ≠ (newEntry now tx).id) ∧
    ((addTransaction now transactions tx).map (fun t => t.id)).Nodup := by
  refine ⟨rfl, ?_, ?_, rfl, rfl, rfl, rfl, rfl, rfl, hfresh, ?_⟩
  · simp [addTransaction]
  · simp [addTransaction]
  · unfold addTransaction
    rw [List.map_append, List.nodup_append]
    refine ⟨hids, List.nodup_singleton _, ?_⟩
    intro a ha hb
    rw [List.map_singleton, List.mem_singleton] at hb
    rw [List.mem_map] at ha
    obtain ⟨t, ht, hta⟩ := ha
    exact hfresh t ht (hta.trans hb)

/-- Witness for C12: an add to the example ledger (ids 1, 2, 3) at a later clock
reading. -/
theorem addTransaction_appends_witness :
    ((addTransaction 1700000000000 exampleLedger (TxData.mk "expense" "Rent"
        (JSVal.num (JSNum.fin 900)) (DateVal.iso ⟨2024, 2, 3⟩) "")).map (fun t => t.id)).Nodup :=
  (addTransaction_appends 1700000000000 exampleLedger (TxData.mk "expense" "Rent"
      (JSVal.num (JSNum.fin 900)) (DateVal.iso ⟨2024, 2, 3⟩) "") (by decide) (by decide)).2.2.2.2.2.2.2.2.2.2

/-! ## Habit invariant -/

theorem get_mem {α : Type} (obj : JSObj α) (key : String) (v : α)
    (h : obj.get key = some v) : (key, v) ∈ obj := by
  induction obj with
  | nil => simp [JSObj.get] at h
  | cons e rest ih =>
      obtain ⟨k, w⟩ := e
      by_cases hk : k = key
      · simp only [JSObj.get, if_pos hk, Option.some.injEq] at h
        rw [hk, h]
        exact List.mem_cons_self _ _
      · simp only [JSObj.get, if_neg hk] at h
        exact List.mem_cons_of_mem _ (ih h)

theorem mem_set {α : Type} (obj : JSObj α) (key : String) (v : α) (e : String × α)
    (h : e ∈ obj.set key v) : e ∈ obj ∨ e = (key, v) := by
  induction obj with
  | nil =>
      simp only [JSObj.set, List.mem_singleton] at h
      exact Or.inr h
  | cons e0 rest ih =>
      obtain ⟨k, w⟩ := e0
      by_cases hk : k = key
      · simp only [JSObj.set, if_pos hk, List.mem_cons] at h
        rcases h with h | h
        · exact Or.inr (by rw [h, hk])
        · exact Or.inl (List.mem_cons_of_mem _ h)
      · simp only [JSObj.set, if_neg hk, List.mem_cons] at h
        rcases h with h | h
        · exact Or.inl (by rw [h]; exact List.mem_cons_self _ _)
        · rcases ih h with h2 | h2
          · exact Or.inl (List.mem_cons_of_mem _ h2)
          · exact Or.inr h2

theorem habitInvariant_mono (events more : List HabitEvent) (entry : String × Habit)
    (h : habitInvariant events entry) : habitInvariant (events ++ more) entry := by
  obtain ⟨hs, hl⟩ := h
  refine ⟨hs, ?_⟩
  rcases hl with hl | ⟨e, he, h1, h2, h3, h4⟩
  · exact Or.inl hl
  · exact Or.inr ⟨e, List.mem_append_left _ he, h1, h2, h3, h4⟩

theorem habitInvariant_step (events : List HabitEvent) (habits : JSObj Habit)
    (e : HabitEvent) (hvalid : e.today.valid = true)
    (hinv : ∀ entry ∈ habits, habitInvariant events entry) :
    ∀ entry ∈ markHabitDoneToday e.today habits e.habitId,
      habitInvariant (events ++ [e]) entry := by
  intro entry hmem
  unfold markHabitDoneToday at hmem
  have hstreak : 0 ≤ (match habits.get e.habitId with
      | some h => h
      | none => ({ streak := 0, lastDone := DateVal.falsy } : Habit)).streak := by
    cases hget : habits.get e.habitId with
    | none => simp
    | some h0 => exact (hinv _ (get_mem habits e.habitId h0 hget)).1
  simp only at hmem
  split at hmem
  · exact habitInvariant_mono events [e] entry (hinv entry hmem)
  · rcases mem_set _ _ _ _ hmem with h1 | h1
    · exact habitInvariant_mono events [e] entry (hinv entry h1)
    · rw [h1]
      refine ⟨?_, Or.inr ⟨e, by simp, rfl, rfl, hvalid, ?_⟩⟩
      · show (0 : Int) ≤ if _ then (if _ then _ else _) else _
        split
        · split
          · exact Int.add_nonneg hstreak (by decide)
          · decide
        · decide
      · intro d hd
        have hd2 : e.today = d := DateVal.iso.inj hd
        rw [hd2]

theorem habitInvariant_run (events : List HabitEvent) :
    ∀ (past : List HabitEvent) (habits : JSObj Habit),
      (∀ e ∈ events, e.today.valid = true) →
      (∀ entry ∈ habits, habitInvariant past entry) →
      ∀ entry ∈ runHabitEvents events habits, habitInvariant (past ++ events) entry := by
  induction events with
  | nil =>
      intro past habits _ hinv entry hmem
      rw [List.append_nil]
      exact hinv entry hmem
  | cons e es ih =>
      intro past habits hvalid hinv entry hmem
      have hstep := habitInvariant_step past habits e (hvalid e (List.mem_cons_self _ _)) hinv
      have hrest := ih (past ++ [e]) (markHabitDoneToday e.today habits e.habitId)
        (fun e2 he2 => hvalid e2 (List.mem_cons_of_mem _ he2)) hstep entry hmem
      rw [List.append_assoc] at hrest
      exact hrest

/-- C13: starting from the default habit map, after every sequence of
`markHabitDoneToday` events whose dates are calendar dates (as the clock gives them),
every habit entry has a streak that is not negative and a `lastDone` that is null or
the valid date of an event for that habit, not later than the date of that event. -/
theorem defaultHabits_invariant (events : List HabitEvent)
    (hclock : ∀ e ∈ events, e.today.valid = true) :
    ∀ entry ∈ runHabitEvents events defaultHabits, habitInvariant events entry := by
  have hbase : ∀ entry ∈ defaultHabits, habitInvariant [] entry := by
    intro entry hmem
    simp only [defaultHabits, List.mem_cons, List.mem_singleton, List.not_mem_nil,
      or_false] at hmem
    rcases hmem with h | h | h <;> rw [h] <;> exact ⟨le_refl _, Or.inl rfl⟩
  have h := habitInvariant_run events [] defaultHabits hclock hbase
  simpa using h

/-- Witness for C13: after the three sample events, all on calendar dates, the entry
of `log_daily` has streak 2 and was last done on 2024-02-29, and it satisfies the
invariant. -/
theorem defaultHabits_invariant_witness :
    habitInvariant sampleEvents
      ("log_daily", { streak := 2, lastDone := DateVal.iso ⟨2024, 2, 29⟩ }) :=
  defaultHabits_invariant sampleEvents (by decide)
    ("log_daily", { streak := 2, lastDone := DateVal.iso ⟨2024, 2, 29⟩ }) (by decide!)

/-! ## Agreement of the expense aggregations -/

theorem or_zero_fin (w : ℚ) : JSNum.or (JSNum.fin w) 0 = JSNum.fin w := by
  unfold JSNum.or
  by_cases hw : w = 0
  · simp [JSNum.truthy, hw, JSNum.zero_def]
  · simp [JSNum.truthy, hw]

theorem amount_or_zero_fin (q : ℚ) :
    (JSVal.or (JSVal.num (JSNum.fin q)) (JSVal.num 0)).toNumber = JSNum.fin q := by
  unfold JSVal.or
  by_cases hq : q = 0
  · simp [JSVal.isTruthy, JSNum.truthy, hq, JSVal.toNumber, JSNum.zero_def]
  · simp [JSVal.isTruthy, JSNum.truthy, hq, JSVal.toNumber]

theorem countedAmount_fin (t : Transaction) (q : ℚ) (h : t.amount = JSVal.num (JSNum.fin q)) :
    countedAmount t = JSNum.fin q := by
  unfold countedAmount
  rw [h]
  rfl

theorem totalOfType_cons (ty : String) (t : Transaction) (ts : List Transaction) :
    totalOfType ty (t :: ts)
      = if t.type = ty then countedAmount t + totalOfType ty ts else totalOfType ty ts := by
  unfold totalOfType
  by_cases h : t.type = ty
  · simp [List.filter_cons, h]
  · simp [List.filter_cons, h]

theorem valuesSum_cons (k : String) (v : JSNum) (rest : JSObj JSNum) :
    valuesSum ((k, v) :: rest) = v + valuesSum rest := by
  simp [valuesSum]

theorem valuesSum_set_none (obj : JSObj JSNum) (key : String) (v : JSNum)
    (h : obj.get key = none) : valuesSum (obj.set key v) = valuesSum obj + v := by
  induction obj with
  | nil =>
      simp only [JSObj.set, valuesSum_cons]
      simp [valuesSum, JSNum.add_zero, JSNum.zero_add]
  | cons e rest ih =>
      obtain ⟨k, w⟩ := e
      by_cases hk : k = key
      · simp [JSObj.get, hk] at h
      · simp only [JSObj.get, if_neg hk] at h
        simp only [JSObj.set, if_neg hk, valuesSum_cons, ih h, JSNum.add_assoc]

theorem valuesSum_set_some (obj : JSObj JSNum) (key : String) (w x : JSNum)
    (h : obj.get key = some w) : valuesSum (obj.set key (w + x)) = valuesSum obj + x := by
  induction obj with
  | nil => simp [JSObj.get] at h
  | cons e rest ih =>
      obtain ⟨k, u⟩ := e
      by_cases hk : k = key
      · simp only [JSObj.get, if_pos hk, Option.some.injEq] at h
        simp only [JSObj.set, if_pos hk, valuesSum_cons, h]
        rw [JSNum.add_assoc, JSNum.add_comm x, ← JSNum.add_assoc]
      · simp only [JSObj.get, if_neg hk] at h
        simp only [JSObj.set, if_neg hk, valuesSum_cons, ih h, JSNum.add_assoc]

theorem allFinite_set (obj : JSObj JSNum) (key : String) (q : ℚ)
    (h : ∀ e ∈ obj, ∃ r : ℚ, e.2 = JSNum.fin r) :
    ∀ e ∈ obj.set key (JSNum.fin q), ∃ r : ℚ, e.2 = JSNum.fin r := by
  intro e he
  rcases mem_set obj key (JSNum.fin q) e he with h1 | h1
  · exact h e h1
  · exact ⟨q, by rw [h1]⟩

/-- Adding the finite amount `q` under `key`, the way both `forEach` bodies do it:
the sum of the values grows by `q` and the values stay finite. -/
theorem upsert_finite (obj : JSObj JSNum) (key : String) (q : ℚ)
    (h : ∀ e ∈ obj, ∃ r : ℚ, e.2 = JSNum.fin r) :
    ∃ old : JSNum,
      (old = match obj.get key with
        | some v => JSNum.or v 0
        | none => 0) ∧
      valuesSum (obj.set key (old + JSNum.fin q)) = valuesSum obj + JSNum.fin q ∧
      ∀ e ∈ obj.set key (old + JSNum.fin q), ∃ r : ℚ, e.2 = JSNum.fin r := by
  cases hget : obj.get key with
  | none =>
      refine ⟨0, rfl, ?_, ?_⟩
      · rw [valuesSum_set_none obj key _ hget, JSNum.zero_add]
      · rw [JSNum.zero_add]
        exact allFinite_set obj key q h
  | some v =>
      obtain ⟨r, hr⟩ := h (key, v) (get_mem obj key v hget)
      simp only at hr
      refine ⟨JSNum.or v 0, rfl, ?_, ?_⟩
      · rw [hr, or_zero_fin]
        rw [hr] at hget
        exact valuesSum_set_some obj key (JSNum.fin r) (JSNum.fin q) hget
      · rw [hr, or_zero_fin, JSNum.fin_add_fin]
        exact allFinite_set obj key (r + q) h

theorem getSummary_expense_total (ts : List Transaction) :
    (getSummary ts).expense = totalOfType "expense" ts := by
  simp only [getSummary]
  rw [foldl_summaryStep]
  simp [JSNum.zero_add]

theorem monthlyStep_sum (tza : LocalTZA) (ty : String) (buckets : JSObj JSNum)
    (t : Transaction) (q : ℚ) (hq : t.amount = JSVal.num (JSNum.fin q))
    (h : ∀ e ∈ buckets, ∃ r : ℚ, e.2 = JSNum.fin r) :
    valuesSum (monthlyStep tza ty buckets t)
        = valuesSum buckets
          + (if t.type = ty ∧ t.date.isTruthy = true ∧ t.date.time ≠ none then JSNum.fin q
             else 0) ∧
      ∀ e ∈ monthlyStep tza ty buckets t, ∃ r : ℚ, e.2 = JSNum.fin r := by
  unfold monthlyStep
  by_cases hty : t.type = ty
  · by_cases htr : t.date.isTruthy = true
    · cases htime : t.date.time with
      | none =>
          simp only [hty, htr, ne_eq, not_true_eq_false, Bool.not_true, Bool.false_eq_true,
            or_self, if_false, and_false, JSNum.add_zero]
          exact ⟨trivial, h⟩
      | some time =>
          obtain ⟨old, hold, hsum, hfin⟩ := upsert_finite buckets (monthKey tza time) q h
          simp only [hty, htr, ne_eq, not_true_eq_false, Bool.not_true, Bool.false_eq_true,
            or_self, if_false, hq, amount_or_zero_fin, reduceCtorEq, not_false_eq_true,
            and_self, if_true]
          rw [← hold]
          exact ⟨hsum, hfin⟩
    · have htr2 : t.date.isTruthy = false := by
        cases hb : t.date.isTruthy
        · rfl
        · exact absurd hb htr
      simp only [htr2, Bool.not_false, or_true, if_true, Bool.false_eq_true, false_and,
        and_false, if_false, JSNum.add_zero]
      exact ⟨trivial, h⟩
  · simp only [ne_eq, hty, not_false_eq_true, true_or, if_true, false_and, if_false,
      JSNum.add_zero]
    exact ⟨trivial, h⟩

theorem monthly_fold_dated (tza : LocalTZA) (ty : String) (ts : List Transaction)
    (hnum : ∀ t ∈ ts, ∃ q : ℚ, t.amount = JSVal.num (JSNum.fin q))
    (hdated : ∀ t ∈ ts, t.type = ty → t.date.isTruthy = true ∧ t.date.time ≠ none) :
    ∀ buckets : JSObj JSNum, (∀ e ∈ buckets, ∃ r : ℚ, e.2 = JSNum.fin r) →
      valuesSum (ts.foldl (monthlyStep tza ty) buckets)
        = valuesSum buckets + totalOfType ty ts := by
  induction ts with
  | nil =>
      intro buckets _
      simp [totalOfType, JSNum.add_zero]
  | cons t ts ih =>
      intro buckets h
      obtain ⟨q, hq⟩ := hnum t (List.mem_cons_self _ _)
      obtain ⟨hsum, hfin⟩ := monthlyStep_sum tza ty buckets t q hq h
      rw [List.foldl_cons, ih (fun t2 h2 => hnum t2 (List.mem_cons_of_mem _ h2))
        (fun t2 h2 => hdated t2 (List.mem_cons_of_mem _ h2)) _ hfin, hsum,
        totalOfType_cons, countedAmount_fin t q hq]
      by_cases hty : t.type = ty
      · have hd := hdated t (List.mem_cons_self _ _) hty
        simp only [hty, hd.1, hd.2, ne_eq, not_false_eq_true, and_self, if_true,
          JSNum.add_assoc]
      · simp only [hty, false_and, if_false, JSNum.add_zero]

theorem monthlyStep_undated (tza : LocalTZA) (ty : String) (buckets : JSObj JSNum)
    (t : Transaction) (h : (t.date.isTruthy && t.date.time.isSome) = false) :
    monthlyStep tza ty buckets t = buckets := by
  unfold monthlyStep
  by_cases htr : t.date.isTruthy = true
  · rw [htr, Bool.true_and] at h
    cases htime : t.date.time with
    | none => simp
    | some time => simp [htime] at h
  · simp [htr]

theorem monthly_fold_filter (tza : LocalTZA) (ty : String) (ts : List Transaction) :
    ∀ buckets : JSObj JSNum,
      ts.foldl (monthlyStep tza ty) buckets
        = (ts.filter (fun t => t.date.isTruthy && t.date.time.isSome)).foldl
            (monthlyStep tza ty) buckets := by
  induction ts with
  | nil => intro buckets; rfl
  | cons t ts ih =>
      intro buckets
      cases hd : (t.date.isTruthy && t.date.time.isSome) with
      | false =>
          rw [List.foldl_cons, monthlyStep_undated tza ty buckets t hd, List.filter_cons_of_neg
            (by simp only [hd, Bool.false_eq_true, not_false_eq_true]), ih]
      | true =>
          rw [List.foldl_cons, List.filter_cons]
          simp only [hd, if_true, List.foldl_cons]
          exact ih _

theorem totalOfType_filter_le (ty : String) (p : Transaction → Bool) (ts : List Transaction)
    (hnum : ∀ t ∈ ts, ∃ q : ℚ, t.amount = JSVal.num (JSNum.fin q))
    (hpos : ∀ t ∈ ts, ∀ q : ℚ, t.amount = JSVal.num (JSNum.fin q) → 0 ≤ q) :
    ∃ m e : ℚ, totalOfType ty (ts.filter p) = JSNum.fin m ∧
      totalOfType ty ts = JSNum.fin e ∧ 0 ≤ m ∧ m ≤ e := by
  induction ts with
  | nil => exact ⟨0, 0, rfl, rfl, le_refl _, le_refl _⟩
  | cons t ts ih =>
      obtain ⟨m, e, hm, he, hm0, hme⟩ := ih (fun t2 h2 => hnum t2 (List.mem_cons_of_mem _ h2))
        (fun t2 h2 => hpos t2 (List.mem_cons_of_mem _ h2))
      obtain ⟨q, hq⟩ := hnum t (List.mem_cons_self _ _)
      have hq0 : 0 ≤ q := hpos t (List.mem_cons_self _ _) q hq
      by_cases hty : t.type = ty
      · cases hp : p t with
        | false =>
            refine ⟨m, q + e, ?_, ?_, hm0, by linarith⟩
            · rw [List.filter_cons_of_neg (by simp only [hp, Bool.false_eq_true,
                not_false_eq_true])]
              exact hm
            · rw [totalOfType_cons, if_pos hty, countedAmount_fin t q hq, he,
                JSNum.fin_add_fin]
        | true =>
            refine ⟨q + m, q + e, ?_, ?_, by linarith, by linarith⟩
            · rw [List.filter_cons_of_pos hp, totalOfType_cons, if_pos hty,
                countedAmount_fin t q hq, hm, JSNum.fin_add_fin]
            · rw [totalOfType_cons, if_pos hty, countedAmount_fin t q hq, he,
                JSNum.fin_add_fin]
      · cases hp : p t with
        | false =>
            refine ⟨m, e, ?_, ?_, hm0, hme⟩
            · rw [List.filter_cons_of_neg (by simp only [hp, Bool.false_eq_true,
                not_false_eq_true])]
              exact hm
            · rw [totalOfType_cons, if_neg hty]
              exact he
        | true =>
            refine ⟨m, e, ?_, ?_, hm0, hme⟩
            · rw [List.filter_cons_of_pos hp, totalOfType_cons, if_neg hty]
              exact hm
            · rw [totalOfType_cons, if_neg hty]
              exact he

theorem sum_perm (l1 l2 : List JSNum) (h : l1.Perm l2) : l1.sum = l2.sum := by
  induction h with
  | nil => rfl
  | cons x _ ih => simp only [List.sum_cons, ih]
  | swap x y l =>
      simp only [List.sum_cons]
      rw [← JSNum.add_assoc, JSNum.add_comm y x, JSNum.add_assoc]
  | trans _ _ ih1 ih2 => exact ih1.trans ih2

theorem totalsSum_monthlySummary (tza : LocalTZA) (ty : String) (ts : List Transaction) :
    totalsSum (monthlySummary tza ty ts) = valuesSum (ts.foldl (monthlyStep tza ty) []) := by
  unfold totalsSum monthlySummary valuesSum
  have hperm := (jsSort_perm compareMonth
    ((ts.foldl (monthlyStep tza ty) []).map (fun e => ({ month := e.1, total := e.2 } : Bucket)))).map
      (fun b => b.total)
  rw [sum_perm _ _ hperm, List.map_map]
  rfl

theorem valuesSum_nil : valuesSum [] = 0 := rfl

theorem get_numericTotals (nums : JSObj JSNum) (key : String) :
    (numericTotals nums).get key = (nums.get key).map JSVal.num := by
  induction nums with
  | nil => rfl
  | cons e rest ih =>
      obtain ⟨k, w⟩ := e
      by_cases hk : k = key
      · simp [numericTotals, JSObj.get, hk]
      · have ih2 : JSObj.get (List.map (fun e => (e.1, JSVal.num e.2)) rest) key
            = (JSObj.get rest key).map JSVal.num := ih
        simp [numericTotals, JSObj.get, hk, ih2]

theorem set_numericTotals (nums : JSObj JSNum) (key : String) (v : JSNum) :
    (numericTotals nums).set key (JSVal.num v) = numericTotals (nums.set key v) := by
  induction nums with
  | nil => rfl
  | cons e rest ih =>
      obtain ⟨k, w⟩ := e
      by_cases hk : k = key
      · simp [numericTotals, JSObj.set, hk]
      · have ih2 : JSObj.set (List.map (fun e => (e.1, JSVal.num e.2)) rest) key (JSVal.num v)
            = List.map (fun e => (e.1, JSVal.num e.2)) (JSObj.set rest key v) := ih
        simp [numericTotals, JSObj.set, hk, ih2]

theorem not_proto_of_not_mem (key : String) (h : key ∉ objectPrototypeKeys) :
    key ≠ "__proto__" := by
  intro hk
  apply h
  rw [hk]
  decide

/-- The value `totals[key] || 0` on an object of finite numbers, for a key that names no
inherited member: the own number, or 0. -/
theorem read_or_zero_numeric (nums : JSObj JSNum) (key : String)
    (hkey : key ∉ objectPrototypeKeys) (h : ∀ e ∈ nums, ∃ r : ℚ, e.2 = JSNum.fin r) :
    JSVal.or (readTotals (numericTotals nums) key) (JSVal.num 0)
      = JSVal.num (match nums.get key with
        | some v => JSNum.or v 0
        | none => 0) := by
  unfold readTotals
  rw [get_numericTotals]
  cases hget : nums.get key with
  | none =>
      simp only [Option.map_none', hkey, if_false]
      rfl
  | some v =>
      obtain ⟨r, hr⟩ := h (key, v) (get_mem nums key v hget)
      simp only at hr
      simp only [Option.map_some', hr, or_zero_fin]
      unfold JSVal.or
      by_cases hr0 : r = 0
      · simp [JSVal.isTruthy, JSNum.truthy, hr0, JSNum.zero_def]
      · simp [JSVal.isTruthy, JSNum.truthy, hr0]

theorem categoryStep_numeric (nums : JSObj JSNum) (t : Transaction) (q : ℚ)
    (hq : t.amount = JSVal.num (JSNum.fin q))
    (hcat : t.type = "expense" → t.category ∉ objectPrototypeKeys)
    (h : ∀ e ∈ nums, ∃ r : ℚ, e.2 = JSNum.fin r) :
    ∃ nums2 : JSObj JSNum,
      categoryStep (numericTotals nums) t = numericTotals nums2 ∧
      valuesSum nums2 = valuesSum nums + (if t.type = "expense" then JSNum.fin q else 0) ∧
      ∀ e ∈ nums2, ∃ r : ℚ, e.2 = JSNum.fin r := by
  by_cases hty : t.type = "expense"
  · obtain ⟨old, hold, hsum, hfin⟩ := upsert_finite nums t.category q h
    refine ⟨nums.set t.category (old + JSNum.fin q), ?_, ?_, hfin⟩
    · unfold categoryStep
      simp only [hty, ne_eq, not_true_eq_false, if_false, hq, amount_or_zero_fin,
        read_or_zero_numeric nums t.category (hcat hty) h]
      rw [← hold]
      unfold writeTotals
      rw [if_neg (not_proto_of_not_mem _ (hcat hty)), set_numericTotals]
    · rw [hsum, if_pos hty]
  · refine ⟨nums, ?_, ?_, h⟩
    · unfold categoryStep
      simp only [ne_eq, hty, not_false_eq_true, if_true]
    · rw [if_neg hty, JSNum.add_zero]

theorem categoryTotals_fold (ts : List Transaction)
    (hnum : ∀ t ∈ ts, ∃ q : ℚ, t.amount = JSVal.num (JSNum.fin q))
    (hcat : ∀ t ∈ ts, t.type = "expense" → t.category ∉ objectPrototypeKeys) :
    ∀ nums : JSObj JSNum, (∀ e ∈ nums, ∃ r : ℚ, e.2 = JSNum.fin r) →
      ∃ nums2 : JSObj JSNum,
        ts.foldl categoryStep (numericTotals nums) = numericTotals nums2 ∧
        valuesSum nums2 = valuesSum nums + totalOfType "expense" ts ∧
        ∀ e ∈ nums2, ∃ r : ℚ, e.2 = JSNum.fin r := by
  induction ts with
  | nil =>
      intro nums h
      exact ⟨nums, rfl, by simp [totalOfType, JSNum.add_zero], h⟩
  | cons t ts ih =>
      intro nums h
      obtain ⟨q, hq⟩ := hnum t (List.mem_cons_self _ _)
      obtain ⟨nums1, hstep, hsum1, hfin1⟩ :=
        categoryStep_numeric nums t q hq (hcat t (List.mem_cons_self _ _)) h
      obtain ⟨nums2, hfold, hsum2, hfin2⟩ :=
        ih (fun t2 h2 => hnum t2 (List.mem_cons_of_mem _ h2))
          (fun t2 h2 => hcat t2 (List.mem_cons_of_mem _ h2)) nums1 hfin1
      refine ⟨nums2, ?_, ?_, hfin2⟩
      · rw [List.foldl_cons, hstep, hfold]
      · rw [hsum2, hsum1, totalOfType_cons, countedAmount_fin t q hq]
        by_cases hty : t.type = "expense"
        · simp only [hty, if_true, JSNum.add_assoc]
        · simp only [hty, if_false, JSNum.add_zero]

theorem foldl_plusValue (vs : List JSNum) (a : JSNum) :
    (vs.map JSVal.num).foldl plusValue (JSVal.num a) = JSVal.num (a + vs.sum) := by
  induction vs generalizing a with
  | nil => simp [JSNum.add_zero]
  | cons v vs ih =>
      simp only [List.map_cons, List.foldl_cons, plusValue, ih, List.sum_cons, JSNum.add_assoc]

theorem sumOfValues_numericTotals (nums : JSObj JSNum) :
    sumOfValues (numericTotals nums) = JSVal.num (valuesSum nums) := by
  unfold sumOfValues numericTotals valuesSum
  rw [List.map_map]
  have h := foldl_plusValue (nums.map Prod.snd) 0
  rw [List.map_map, JSNum.zero_add] at h
  exact h

/-- In exact arithmetic the three expense aggregations add up the same amounts: for
finite numeric amounts and expense categories that name no member of
`Object.prototype`, the category totals sum to the expense of the summary; so do the
monthly totals when every expense has a date that parses; and with no negative amount
the monthly totals sum to at most that expense. -/
theorem expense_aggregations_exact (tza : LocalTZA) (transactions : List Transaction)
    (hnum : ∀ t ∈ transactions, ∃ q : ℚ, t.amount = JSVal.num (JSNum.fin q))
    (hcat : ∀ t ∈ transactions, t.type = "expense" → t.category ∉ objectPrototypeKeys) :
    sumOfValues (getCategoryTotals transactions)
        = JSVal.num (getSummary transactions).expense ∧
    ((∀ t ∈ transactions, t.type = "expense" →
        t.date.isTruthy = true ∧ t.date.time ≠ none) →
      totalsSum (getMonthlyExpenseSummary tza transactions)
        = (getSummary transactions).expense) ∧
    ((∀ t ∈ transactions, ∀ q : ℚ, t.amount = JSVal.num (JSNum.fin q) → 0 ≤ q) →
      JSNum.le (totalsSum (getMonthlyExpenseSummary tza transactions))
        (getSummary transactions).expense = true) := by
  refine ⟨?_, ?_, ?_⟩
  · unfold getCategoryTotals
    obtain ⟨nums2, hfold, hsum, _⟩ := categoryTotals_fold transactions hnum hcat [] (by simp)
    have hnil : numericTotals [] = ([] : JSObj JSVal) := rfl
    rw [hnil] at hfold
    rw [hfold, sumOfValues_numericTotals, hsum, valuesSum_nil, JSNum.zero_add,
      getSummary_expense_total]
  · intro hdated
    unfold getMonthlyExpenseSummary
    rw [totalsSum_monthlySummary, monthly_fold_dated tza "expense" transactions hnum hdated []
      (by simp), valuesSum_nil, JSNum.zero_add, getSummary_expense_total]
  · intro hpos
    unfold getMonthlyExpenseSummary
    have hmem : ∀ t ∈ transactions.filter (fun t => t.date.isTruthy && t.date.time.isSome),
        t ∈ transactions := fun t ht => (List.mem_filter.mp ht).1
    have hd : ∀ t ∈ transactions.filter (fun t => t.date.isTruthy && t.date.time.isSome),
        t.type = "expense" → t.date.isTruthy = true ∧ t.date.time ≠ none := by
      intro t ht _
      have h2 := (List.mem_filter.mp ht).2
      simp only [Bool.and_eq_true] at h2
      refine ⟨h2.1, ?_⟩
      intro hnone
      rw [hnone] at h2
      simp at h2
    rw [totalsSum_monthlySummary, monthly_fold_filter,
      monthly_fold_dated tza "expense" _ (fun t ht => hnum t (hmem t ht)) hd [] (by simp),
      valuesSum_nil, JSNum.zero_add, getSummary_expense_total]
    obtain ⟨m, e, hm, he, _, hme⟩ := totalOfType_filter_le "expense"
      (fun t => t.date.isTruthy && t.date.time.isSome) transactions hnum hpos
    rw [hm, he]
    simp [JSNum.le, JSNum.ge, hme]

/-! ## Whole numbers in double arithmetic -/

theorem log2Fuel_pow_le (fuel : Nat) : ∀ n : Nat, n ≤ fuel → 1 ≤ n → 2 ^ log2Fuel fuel n ≤ n := by
  induction fuel with
  | zero =>
      intro n h h1
      omega
  | succ fuel ih =>
      intro n h h1
      unfold log2Fuel
      by_cases h2 : 2 ≤ n
      · rw [if_pos h2, pow_succ]
        have := ih (n / 2) (by omega) (by omega)
        omega
      · rw [if_neg h2]
        simpa using h1

theorem log2Fuel_le (fuel : Nat) : ∀ n k : Nat, n ≤ fuel → n < 2 ^ (k + 1) → log2Fuel fuel n ≤ k := by
  induction fuel with
  | zero =>
      intro n k _ _
      simp [log2Fuel]
  | succ fuel ih =>
      intro n k h hk
      unfold log2Fuel
      by_cases h2 : 2 ≤ n
      · rw [if_pos h2]
        cases k with
        | zero =>
            simp at hk
            omega
        | succ k =>
            have hdiv : n / 2 < 2 ^ (k + 1) := by
              rw [pow_succ] at hk
              omega
            have := ih (n / 2) k (by omega) hdiv
            omega
      · rw [if_neg h2]
        omega

theorem roundMagnitude_natCast (n : Nat) (h1 : 1 ≤ n) (h : n < 2 ^ 53) :
    roundMagnitude n 1 = (n : ℚ) := by
  have hlog1 : log2 1 = 0 := by decide
  have hle : 2 ^ log2 n ≤ n := log2Fuel_pow_le n n (le_refl _) h1
  have hlog : log2 n ≤ 52 := log2Fuel_le n n 52 (le_refl _) h
  have hfl : floorLog2 n 1 = (log2 n : Int) := by
    unfold floorLog2
    rw [hlog1]
    simp [hle]
  unfold roundMagnitude
  rw [hfl]
  have hk : max ((log2 n : Int)) (-1022) - 52 = -((52 - log2 n : Nat) : Int) := by
    omega
  simp only [hk, neg_neg, Int.toNat_ofNat]
  have hz : (-((52 - log2 n : Nat) : Int)).toNat = 0 := by omega
  rw [hz]
  have hr : roundHalfEven (n * 2 ^ (52 - log2 n)) (1 * 2 ^ 0) = n * 2 ^ (52 - log2 n) := by
    unfold roundHalfEven
    simp only [Nat.pow_zero, Nat.mul_one, Nat.mod_one, Nat.mul_zero, Nat.zero_lt_one, if_true,
      Nat.div_one]
  rw [hr]
  push_cast
  field_simp

theorem ofRat_natCast (n : Nat) (h : n < 2 ^ 53) : JSNum.ofRat (n : ℚ) = JSNum.fin n := by
  unfold JSNum.ofRat
  by_cases h0 : n = 0
  · simp [h0]
  · have h1 : 1 ≤ n := Nat.one_le_iff_ne_zero.mpr h0
    have hq : ((n : ℚ) = 0) = False := by simp [h0]
    have hpos : (0 : ℚ) < n := by exact_mod_cast h1
    simp only [hq, if_false, Rat.num_natCast, Int.natAbs_ofNat, Rat.den_natCast,
      roundMagnitude_natCast n h1 h, hpos, if_true]
    have hlt : ¬ ((2 : ℚ) ^ 1024 ≤ (n : ℚ)) := by
      have h53 : (n : ℚ) < 2 ^ 53 := by exact_mod_cast h
      have : (2 : ℚ) ^ 53 ≤ 2 ^ 1024 := by
        apply pow_le_pow_right₀ <;> norm_num
      intro hc
      linarith
    rw [if_neg hlt]

theorem addD_natCast (a b : Nat) (h : a + b < 2 ^ 53) :
    JSNum.addD (JSNum.fin a) (JSNum.fin b) = JSNum.fin ((a + b : Nat) : ℚ) := by
  unfold JSNum.addD
  rw [JSNum.fin_add_fin]
  have hc : (a : ℚ) + (b : ℚ) = ((a + b : Nat) : ℚ) := by push_cast; rfl
  rw [hc]
  exact ofRat_natCast (a + b) h

theorem addD_eq_add (a b : Nat) (h : a + b < 2 ^ 53) :
    JSNum.addD (JSNum.fin a) (JSNum.fin b) = JSNum.fin a + JSNum.fin b := by
  rw [addD_natCast a b h, JSNum.fin_add_fin]
  push_cast
  rfl

theorem zero_eq_fin_natCast : (0 : JSNum) = JSNum.fin ((0 : Nat) : ℚ) := by
  rw [JSNum.zero_def]
  simp

theorem totalOfType_whole (ty : String) (ts : List Transaction)
    (hwhole : ∀ t ∈ ts, ∃ n : Nat, t.amount = JSVal.num (JSNum.fin n)) :
    ∃ e : Nat, totalOfType ty ts = JSNum.fin e := by
  induction ts with
  | nil => exact ⟨0, zero_eq_fin_natCast⟩
  | cons t ts ih =>
      obtain ⟨e, he⟩ := ih (fun t2 h2 => hwhole t2 (List.mem_cons_of_mem _ h2))
      obtain ⟨n, hn⟩ := hwhole t (List.mem_cons_self _ _)
      rw [totalOfType_cons, countedAmount_fin t n hn, he]
      by_cases hty : t.type = ty
      · refine ⟨n + e, ?_⟩
        rw [if_pos hty, JSNum.fin_add_fin]
        push_cast
        rfl
      · exact ⟨e, by rw [if_neg hty]⟩

theorem summaryD_expense (ts : List Transaction)
    (hwhole : ∀ t ∈ ts, ∃ n : Nat, t.amount = JSVal.num (JSNum.fin n)) :
    ∀ (acc : JSNum × JSNum) (b e : Nat), acc.2 = JSNum.fin b →
      totalOfType "expense" ts = JSNum.fin e → b + e < 2 ^ 53 →
      (ts.foldl summaryStepD acc).2 = JSNum.fin ((b + e : Nat) : ℚ) := by
  induction ts with
  | nil =>
      intro acc b e hacc he _
      have he0 : (e : ℚ) = 0 := by
        have h0 : totalOfType "expense" [] = JSNum.fin 0 := rfl
        rw [h0] at he
        exact (JSNum.fin.inj he).symm
      rw [List.foldl_nil, hacc]
      push_cast
      rw [he0, add_zero]
  | cons t ts ih =>
      intro acc b e hacc he hlt
      obtain ⟨n, hn⟩ := hwhole t (List.mem_cons_self _ _)
      obtain ⟨e2, he2⟩ := totalOfType_whole "expense" ts
        (fun t2 h2 => hwhole t2 (List.mem_cons_of_mem _ h2))
      rw [totalOfType_cons, countedAmount_fin t n hn, he2] at he
      rw [List.foldl_cons]
      by_cases hty : t.type = "expense"
      · rw [if_pos hty, JSNum.fin_add_fin] at he
        have hne : ((n + e2 : Nat) : ℚ) = (e : ℚ) := by
          push_cast
          exact JSNum.fin.inj he
        have hne2 : n + e2 = e := by exact_mod_cast hne
        have hstep : (summaryStepD acc t).2 = JSNum.fin ((b + n : Nat) : ℚ) := by
          unfold summaryStepD
          simp only [hty, if_true, hn, JSVal.toNumber, or_zero_fin, hacc]
          exact addD_natCast b n (by omega)
        have h := ih (fun t2 h2 => hwhole t2 (List.mem_cons_of_mem _ h2))
          (summaryStepD acc t) (b + n) e2 hstep he2 (by omega)
        rw [h]
        congr 2
        omega
      · rw [if_neg hty] at he
        have hne : (e2 : ℚ) = (e : ℚ) := JSNum.fin.inj he
        have hne2 : e2 = e := by exact_mod_cast hne
        have hstep : (summaryStepD acc t).2 = JSNum.fin (b : ℚ) := by
          unfold summaryStepD
          simp only [hty, if_false, hacc]
        have h := ih (fun t2 h2 => hwhole t2 (List.mem_cons_of_mem _ h2))
          (summaryStepD acc t) b e2 hstep he2 (by omega)
        rw [h, hne2]

theorem getSummaryD_expense (ts : List Transaction) (S : ℚ)
    (hwhole : ∀ t ∈ ts, ∃ n : Nat, t.amount = JSVal.num (JSNum.fin n))
    (hS : (getSummary ts).expense = JSNum.fin S) (hB : S < 2 ^ 53) :
    (getSummaryD ts).expense = JSNum.fin S := by
  obtain ⟨e, he⟩ := totalOfType_whole "expense" ts hwhole
  rw [getSummary_expense_total, he] at hS
  have hSe : (e : ℚ) = S := JSNum.fin.inj hS
  have hlt : e < 2 ^ 53 := by
    have : (e : ℚ) < 2 ^ 53 := by rw [hSe]; exact hB
    exact_mod_cast this
  have h := summaryD_expense ts hwhole (0, 0) 0 e zero_eq_fin_natCast he (by omega)
  show (ts.foldl summaryStepD (0, 0)).2 = JSNum.fin S
  rw [h, ← hSe]
  congr 2
  omega

theorem wholeUpTo_mono (b c : Nat) (nums : JSObj JSNum) (hbc : b ≤ c)
    (h : wholeUpTo b nums) : wholeUpTo c nums := by
  intro e he
  obtain ⟨v, hv, hvb⟩ := h e he
  exact ⟨v, hv, le_trans hvb hbc⟩

theorem wholeUpTo_finite (b : Nat) (nums : JSObj JSNum) (h : wholeUpTo b nums) :
    ∀ e ∈ nums, ∃ r : ℚ, e.2 = JSNum.fin r := by
  intro e he
  obtain ⟨v, hv, _⟩ := h e he
  exact ⟨v, hv⟩

/-- Adding the whole number `n` under `key` when every value is a whole number at most
`b` and `b + n` is below `2^53`: the rounded sum is the exact one, and every value is
then at most `b + n`. -/
theorem upsert_whole (nums : JSObj JSNum) (key : String) (n b : Nat)
    (h : wholeUpTo b nums) (hlt : b + n < 2 ^ 53) :
    ∃ old : JSNum,
      (old = match nums.get key with
        | some v => JSNum.or v 0
        | none => 0) ∧
      JSNum.addD old (JSNum.fin n) = old + JSNum.fin n ∧
      wholeUpTo (b + n) (nums.set key (old + JSNum.fin n)) := by
  cases hget : nums.get key with
  | none =>
      refine ⟨0, rfl, ?_, ?_⟩
      · rw [zero_eq_fin_natCast]
        exact addD_eq_add 0 n (by omega)
      · intro e he
        rcases mem_set nums key _ e he with h1 | h1
        · obtain ⟨v, hv, hvb⟩ := h e h1
          exact ⟨v, hv, by omega⟩
        · refine ⟨n, ?_, by omega⟩
          rw [h1, JSNum.zero_add]
  | some v =>
      obtain ⟨m, hm, hmb⟩ := h (key, v) (get_mem nums key v hget)
      simp only at hm
      refine ⟨JSNum.or v 0, rfl, ?_, ?_⟩
      · rw [hm, or_zero_fin]
        exact addD_eq_add m n (by omega)
      · intro e he
        rcases mem_set nums key _ e he with h1 | h1
        · obtain ⟨w, hw, hwb⟩ := h e h1
          exact ⟨w, hw, by omega⟩
        · refine ⟨m + n, ?_, by omega⟩
          rw [h1, hm, or_zero_fin, JSNum.fin_add_fin]
          push_cast
          rfl

theorem monthlyStepD_whole (tza : LocalTZA) (ty : String) (buckets : JSObj JSNum)
    (t : Transaction) (n b : Nat) (hn : t.amount = JSVal.num (JSNum.fin n))
    (h : wholeUpTo b buckets) (hlt : t.type = ty → b + n < 2 ^ 53) :
    monthlyStepD tza ty buckets t = monthlyStep tza ty buckets t ∧
      wholeUpTo (b + (if t.type = ty then n else 0)) (monthlyStep tza ty buckets t) := by
  unfold monthlyStepD monthlyStep
  by_cases hc : t.type ≠ ty ∨ (!t.date.isTruthy) = true
  · simp only [hc, if_true]
    exact ⟨trivial, wholeUpTo_mono b _ buckets (by omega) h⟩
  · simp only [hc, if_false]
    have hty : t.type = ty := by
      by_contra hne
      exact hc (Or.inl hne)
    cases htime : t.date.time with
    | none => exact ⟨rfl, wholeUpTo_mono b _ buckets (by omega) h⟩
    | some time =>
        obtain ⟨old, hold, hadd, hw⟩ :=
          upsert_whole buckets (monthKey tza time) n b h (hlt hty)
        simp only [hn, amount_or_zero_fin]
        rw [← hold, hadd, if_pos hty]
        exact ⟨rfl, hw⟩

theorem monthly_foldD_whole (tza : LocalTZA) (ty : String) (ts : List Transaction)
    (hwhole : ∀ t ∈ ts, ∃ n : Nat, t.amount = JSVal.num (JSNum.fin n)) :
    ∀ (buckets : JSObj JSNum) (b e : Nat), wholeUpTo b buckets →
      totalOfType ty ts = JSNum.fin e → b + e < 2 ^ 53 →
      ts.foldl (monthlyStepD tza ty) buckets = ts.foldl (monthlyStep tza ty) buckets ∧
        wholeUpTo (b + e) (ts.foldl (monthlyStep tza ty) buckets) := by
  induction ts with
  | nil =>
      intro buckets b e h _ _
      exact ⟨rfl, wholeUpTo_mono b (b + e) buckets (by omega) h⟩
  | cons t ts ih =>
      intro buckets b e h he hlt
      obtain ⟨n, hn⟩ := hwhole t (List.mem_cons_self _ _)
      have hw2 : ∀ t2 ∈ ts, ∃ n : Nat, t2.amount = JSVal.num (JSNum.fin n) :=
        fun t2 h2 => hwhole t2 (List.mem_cons_of_mem _ h2)
      obtain ⟨e2, he2⟩ := totalOfType_whole ty ts hw2
      rw [totalOfType_cons, countedAmount_fin t n hn, he2] at he
      have hne2 : (if t.type = ty then n else 0) + e2 = e := by
        by_cases hty : t.type = ty
        · rw [if_pos hty, JSNum.fin_add_fin] at he
          have hne : ((n + e2 : Nat) : ℚ) = (e : ℚ) := by
            push_cast
            exact JSNum.fin.inj he
          rw [if_pos hty]
          exact_mod_cast hne
        · rw [if_neg hty] at he
          have hne : (e2 : ℚ) = (e : ℚ) := JSNum.fin.inj he
          rw [if_neg hty, Nat.zero_add]
          exact_mod_cast hne
      obtain ⟨hstep, hw⟩ := monthlyStepD_whole tza ty buckets t n b hn h (by
        intro hty
        rw [if_pos hty] at hne2
        omega)
      obtain ⟨hfold, hw3⟩ := ih hw2 (monthlyStep tza ty buckets t)
        (b + (if t.type = ty then n else 0)) e2 hw he2 (by omega)
      rw [List.foldl_cons, List.foldl_cons, hstep]
      refine ⟨hfold, ?_⟩
      have hbe : b + (if t.type = ty then n else 0) + e2 = b + e := by omega
      rw [hbe] at hw3
      exact hw3

theorem categoryStepD_whole (nums : JSObj JSNum) (t : Transaction) (n b : Nat)
    (hn : t.amount = JSVal.num (JSNum.fin n))
    (hcat : t.type = "expense" → t.category ∉ objectPrototypeKeys)
    (h : wholeUpTo b nums) (hlt : t.type = "expense" → b + n < 2 ^ 53) :
    ∃ nums2 : JSObj JSNum,
      categoryStep (numericTotals nums) t = numericTotals nums2 ∧
      categoryStepD (numericTotals nums) t = numericTotals nums2 ∧
      wholeUpTo (b + (if t.type = "expense" then n else 0)) nums2 := by
  by_cases hty : t.type = "expense"
  · obtain ⟨old, hold, hadd, hw⟩ := upsert_whole nums t.category n b h (hlt hty)
    refine ⟨nums.set t.category (old + JSNum.fin n), ?_, ?_, ?_⟩
    · unfold categoryStep
      simp only [hty, ne_eq, not_true_eq_false, if_false, hn, amount_or_zero_fin,
        read_or_zero_numeric nums t.category (hcat hty) (wholeUpTo_finite b nums h)]
      rw [← hold]
      unfold writeTotals
      rw [if_neg (not_proto_of_not_mem _ (hcat hty)), set_numericTotals]
    · unfold categoryStepD
      simp only [hty, ne_eq, not_true_eq_false, if_false, hn, amount_or_zero_fin,
        read_or_zero_numeric nums t.category (hcat hty) (wholeUpTo_finite b nums h)]
      rw [← hold, hadd]
      unfold writeTotals
      rw [if_neg (not_proto_of_not_mem _ (hcat hty)), set_numericTotals]
    · rw [if_pos hty]
      exact hw
  · refine ⟨nums, ?_, ?_, ?_⟩
    · unfold categoryStep
      simp only [ne_eq, hty, not_false_eq_true, if_true]
    · unfold categoryStepD
      simp only [ne_eq, hty, not_false_eq_true, if_true]
    · rw [if_neg hty]
      exact h

theorem category_foldD_whole (ts : List Transaction)
    (hwhole : ∀ t ∈ ts, ∃ n : Nat, t.amount = JSVal.num (JSNum.fin n))
    (hcat : ∀ t ∈ ts, t.type = "expense" → t.category ∉ objectPrototypeKeys) :
    ∀ (nums : JSObj JSNum) (b e : Nat), wholeUpTo b nums →
      totalOfType "expense" ts = JSNum.fin e → b + e < 2 ^ 53 →
      ∃ nums2 : JSObj JSNum,
        ts.foldl categoryStep (numericTotals nums) = numericTotals nums2 ∧
        ts.foldl categoryStepD (numericTotals nums) = numericTotals nums2 ∧
        wholeUpTo (b + e) nums2 := by
  induction ts with
  | nil =>
      intro nums b e h _ _
      exact ⟨nums, rfl, rfl, wholeUpTo_mono b (b + e) nums (by omega) h⟩
  | cons t ts ih =>
      intro nums b e h he hlt
      obtain ⟨n, hn⟩ := hwhole t (List.mem_cons_self _ _)
      have hw2 : ∀ t2 ∈ ts, ∃ n : Nat, t2.amount = JSVal.num (JSNum.fin n) :=
        fun t2 h2 => hwhole t2 (List.mem_cons_of_mem _ h2)
      obtain ⟨e2, he2⟩ := totalOfType_whole "expense" ts hw2
      rw [totalOfType_cons, countedAmount_fin t n hn, he2] at he
      have hne2 : (if t.type = "expense" then n else 0) + e2 = e := by
        by_cases hty : t.type = "expense"
        · rw [if_pos hty, JSNum.fin_add_fin] at he
          have hne : ((n + e2 : Nat) : ℚ) = (e : ℚ) := by
            push_cast
            exact JSNum.fin.inj he
          rw [if_pos hty]
          exact_mod_cast hne
        · rw [if_neg hty] at he
          have hne : (e2 : ℚ) = (e : ℚ) := JSNum.fin.inj he
          rw [if_neg hty, Nat.zero_add]
          exact_mod_cast hne
      obtain ⟨nums1, hstep, hstepD, hw⟩ := categoryStepD_whole nums t n b hn
        (hcat t (List.mem_cons_self _ _)) h (by
          intro hty
          rw [if_pos hty] at hne2
          omega)
      obtain ⟨nums2, hfold, hfoldD, hw3⟩ := ih hw2
        (fun t2 h2 => hcat t2 (List.mem_cons_of_mem _ h2)) nums1
        (b + (if t.type = "expense" then n else 0)) e2 hw he2 (by omega)
      refine ⟨nums2, ?_, ?_, ?_⟩
      · rw [List.foldl_cons, hstep, hfold]
      · rw [List.foldl_cons, hstepD, hfoldD]
      · have hbe : b + (if t.type = "expense" then n else 0) + e2 = b + e := by omega
        rw [hbe] at hw3
        exact hw3

theorem sum_whole (l : List JSNum) (hall : ∀ x ∈ l, ∃ n : Nat, x = JSNum.fin n) :
    ∃ r : Nat, l.sum = JSNum.fin r := by
  induction l with
  | nil => exact ⟨0, zero_eq_fin_natCast⟩
  | cons x l ih =>
      obtain ⟨r, hr⟩ := ih (fun y hy => hall y (List.mem_cons_of_mem _ hy))
      obtain ⟨n, hn⟩ := hall x (List.mem_cons_self _ _)
      refine ⟨n + r, ?_⟩
      rw [List.sum_cons, hr, hn, JSNum.fin_add_fin]
      push_cast
      rfl

/-- A list of whole numbers whose exact sum is below `2^53` has the same sum in double
arithmetic, whatever the order of its elements. -/
theorem foldl_addD_whole (l : List JSNum) (hall : ∀ x ∈ l, ∃ n : Nat, x = JSNum.fin n) :
    ∀ a S : Nat, JSNum.fin a + l.sum = JSNum.fin S → S < 2 ^ 53 →
      l.foldl JSNum.addD (JSNum.fin a) = JSNum.fin S := by
  induction l with
  | nil =>
      intro a S h _
      have h0 : ([] : List JSNum).sum = JSNum.fin 0 := rfl
      rw [h0, JSNum.fin_add_fin, add_zero] at h
      exact h
  | cons x l ih =>
      intro a S h hS
      obtain ⟨n, hn⟩ := hall x (List.mem_cons_self _ _)
      obtain ⟨r, hr⟩ := sum_whole l (fun y hy => hall y (List.mem_cons_of_mem _ hy))
      rw [List.sum_cons, hn, hr, JSNum.fin_add_fin, JSNum.fin_add_fin] at h
      have hq : ((a + (n + r) : Nat) : ℚ) = (S : ℚ) := by
        push_cast
        exact JSNum.fin.inj h
      have hnat : a + (n + r) = S := by exact_mod_cast hq
      rw [List.foldl_cons, hn, addD_natCast a n (by omega)]
      apply ih (fun y hy => hall y (List.mem_cons_of_mem _ hy)) (a + n) S _ hS
      rw [hr, JSNum.fin_add_fin]
      congr 1
      rw [← hq]
      push_cast
      ring

theorem foldl_plusValueD (vs : List JSNum) (a : JSNum) :
    (vs.map JSVal.num).foldl plusValueD (JSVal.num a) = JSVal.num (vs.foldl JSNum.addD a) := by
  induction vs generalizing a with
  | nil => rfl
  | cons v vs ih => simp only [List.map_cons, List.foldl_cons, plusValueD, ih]

theorem sumOfValuesD_numericTotals (nums : JSObj JSNum) (b S : Nat) (h : wholeUpTo b nums)
    (hsum : valuesSum nums = JSNum.fin S) (hS : S < 2 ^ 53) :
    sumOfValuesD (numericTotals nums) = JSVal.num (JSNum.fin S) := by
  unfold sumOfValuesD numericTotals
  rw [List.map_map]
  have hmap : List.map (Prod.snd ∘ fun e : String × JSNum => (e.1, JSVal.num e.2)) nums
      = (nums.map Prod.snd).map JSVal.num := by
    rw [List.map_map]
    rfl
  rw [hmap, foldl_plusValueD, zero_eq_fin_natCast]
  congr 1
  apply foldl_addD_whole _ _ 0 S _ hS
  · intro x hx
    rw [List.mem_map] at hx
    obtain ⟨e, he, hex⟩ := hx
    obtain ⟨v, hv, _⟩ := h e he
    exact ⟨v, by rw [← hex, hv]⟩
  · rw [← zero_eq_fin_natCast, JSNum.zero_add]
    exact hsum

theorem monthlySummary_totals_whole (tza : LocalTZA) (ty : String) (ts : List Transaction)
    (b : Nat) (h : wholeUpTo b (ts.foldl (monthlyStep tza ty) [])) :
    ∀ x ∈ (monthlySummary tza ty ts).map (fun m => m.total), ∃ n : Nat, x = JSNum.fin n := by
  intro x hx
  unfold monthlySummary at hx
  have hperm := (jsSort_perm compareMonth
    ((ts.foldl (monthlyStep tza ty) []).map (fun e => ({ month := e.1, total := e.2 } : Bucket)))).map
      (fun m => m.total)
  have hx2 := hperm.mem_iff.mp hx
  rw [List.map_map, List.mem_map] at hx2
  obtain ⟨e, he, hex⟩ := hx2
  obtain ⟨v, hv, _⟩ := h e he
  exact ⟨v, by rw [← hex]; exact hv⟩

/-- C14, counterexample: amounts that are numbers, not negative, on present dates, for
which the aggregations disagree.  Expenses 0.1 (Food), 0.3 (Rent), 0.7 (Food): the
summary's expense is 1.1 and the category totals sum to 1.0999999999999999.  Expenses
0.1 (January), 0.7 (February), 0.3 (January): the monthly totals sum to 1.1, which is
greater than the summary's expense 1.0999999999999999.  One expense of 50 in the
category "constructor": the category total is a string, not the expense 50. -/
theorem expense_aggregations_disagree :
    ((getSummaryD categoryRoundingLedger).expense
        = JSNum.fin (2476979795053773 / 2251799813685248) ∧
      sumOfValuesD (getCategoryTotalsD categoryRoundingLedger)
        = JSVal.num (JSNum.fin (4953959590107545 / 4503599627370496)) ∧
      sumOfValuesD (getCategoryTotalsD categoryRoundingLedger)
        ≠ JSVal.num (getSummaryD categoryRoundingLedger).expense) ∧
    ((getSummaryD monthlyRoundingLedger).expense
        = JSNum.fin (4953959590107545 / 4503599627370496) ∧
      totalsSumD (getMonthlyExpenseSummaryD utc monthlyRoundingLedger)
        = JSNum.fin (2476979795053773 / 2251799813685248) ∧
      JSNum.gt (totalsSumD (getMonthlyExpenseSummaryD utc monthlyRoundingLedger))
        (getSummaryD monthlyRoundingLedger).expense = true) ∧
    ((getSummaryD constructorLedger).expense = JSNum.fin 50 ∧
      getCategoryTotalsD constructorLedger = [("constructor", JSVal.truthy JSNum.nan)] ∧
      sumOfValuesD (getCategoryTotalsD constructorLedger)
        ≠ JSVal.num (getSummaryD constructorLedger).expense) := by
  decide!

/-- C14, amended: for a transaction list whose amounts are whole numbers, whose exact
expense total is below `2^53` and whose expense categories name no member of
`Object.prototype`, the three aggregations agree as the code computes them, in
doubles: the values of `getCategoryTotals` sum to the expense of `getSummary`; the
totals of `getMonthlyExpenseSummary` sum to it too when every expense has a date that
is present and parses; and that sum is never greater than the expense of `getSummary`,
whatever the dates. -/
theorem expense_aggregations_whole (tza : LocalTZA) (transactions : List Transaction) (S : ℚ)
    (hwhole : ∀ t ∈ transactions, ∃ n : Nat, t.amount = JSVal.num (JSNum.fin n))
    (hcat : ∀ t ∈ transactions, t.type = "expense" → t.category ∉ objectPrototypeKeys)
    (hS : (getSummary transactions).expense = JSNum.fin S) (hB : S < 2 ^ 53) :
    sumOfValuesD (getCategoryTotalsD transactions)
        = JSVal.num (getSummaryD transactions).expense ∧
    ((∀ t ∈ transactions, t.type = "expense" →
        t.date.isTruthy = true ∧ t.date.time ≠ none) →
      totalsSumD (getMonthlyExpenseSummaryD tza transactions)
        = (getSummaryD transactions).expense) ∧
    JSNum.le (totalsSumD (getMonthlyExpenseSummaryD tza transactions))
      (getSummaryD transactions).expense = true := by
  have hnum : ∀ t ∈ transactions, ∃ q : ℚ, t.amount = JSVal.num (JSNum.fin q) := by
    intro t ht
    obtain ⟨n, hn⟩ := hwhole t ht
    exact ⟨n, hn⟩
  have hpos : ∀ t ∈ transactions, ∀ q : ℚ, t.amount = JSVal.num (JSNum.fin q) → 0 ≤ q := by
    intro t ht q hq
    obtain ⟨n, hn⟩ := hwhole t ht
    rw [hn] at hq
    have hqn : (n : ℚ) = q := JSNum.fin.inj (JSVal.num.inj hq)
    rw [← hqn]
    exact Nat.cast_nonneg n
  obtain ⟨e, he⟩ := totalOfType_whole "expense" transactions hwhole
  have hSe : (e : ℚ) = S := by
    have h2 := hS
    rw [getSummary_expense_total, he] at h2
    exact JSNum.fin.inj h2
  have hlt : e < 2 ^ 53 := by
    have : (e : ℚ) < 2 ^ 53 := by rw [hSe]; exact hB
    exact_mod_cast this
  have hexpD : (getSummaryD transactions).expense = (getSummary transactions).expense := by
    rw [getSummaryD_expense transactions S hwhole hS hB, hS]
  have hexact := expense_aggregations_exact tza transactions hnum hcat
  have hempty : wholeUpTo 0 ([] : JSObj JSNum) := by
    intro x hx
    simp at hx
  -- the monthly summary is the same list in both arithmetics
  obtain ⟨hfoldM, hwM⟩ := monthly_foldD_whole tza "expense" transactions hwhole [] 0 e
    hempty he (by omega)
  have hmonthly : getMonthlyExpenseSummaryD tza transactions
      = getMonthlyExpenseSummary tza transactions := by
    unfold getMonthlyExpenseSummaryD getMonthlyExpenseSummary monthlySummary
    simp only [hfoldM]
  have hallM := monthlySummary_totals_whole tza "expense" transactions (0 + e) hwM
  obtain ⟨m, hm⟩ := sum_whole _ hallM
  have hle := hexact.2.2 hpos
  have hmS : m ≤ e := by
    unfold getMonthlyExpenseSummary totalsSum at hle
    rw [hm, hS, ← hSe] at hle
    simp only [JSNum.le, JSNum.ge, decide_eq_true_eq] at hle
    exact_mod_cast hle
  have hsumD : totalsSumD (getMonthlyExpenseSummaryD tza transactions)
      = totalsSum (getMonthlyExpenseSummary tza transactions) := by
    rw [hmonthly]
    unfold totalsSumD totalsSum getMonthlyExpenseSummary
    rw [hm, zero_eq_fin_natCast]
    apply foldl_addD_whole _ hallM 0 m _ (by omega)
    rw [← zero_eq_fin_natCast, JSNum.zero_add]
    exact hm
  refine ⟨?_, ?_, ?_⟩
  · obtain ⟨nums2, hfold, hfoldD, hw⟩ := category_foldD_whole transactions hwhole hcat [] 0 e
      hempty he (by omega)
    have hnil : numericTotals [] = ([] : JSObj JSVal) := rfl
    rw [hnil] at hfold hfoldD
    have hsum : valuesSum nums2 = JSNum.fin e := by
      have h1 := hexact.1
      unfold getCategoryTotals at h1
      rw [hfold, sumOfValues_numericTotals, hS, ← hSe] at h1
      exact JSVal.num.inj h1
    unfold getCategoryTotalsD
    rw [hfoldD, sumOfValuesD_numericTotals nums2 (0 + e) e hw hsum hlt, hexpD, hS, hSe]
  · intro hdated
    rw [hsumD, hexpD]
    exact hexact.2.1 hdated
  · rw [hsumD, hexpD]
    exact hle

/-- Witness for C14: the example ledger in UTC, whose amounts are 1000, 400 and 300,
whose expenses total 700 and whose transactions all have a date. -/
theorem expense_aggregations_whole_witness :
    sumOfValuesD (getCategoryTotalsD exampleLedger)
        = JSVal.num (getSummaryD exampleLedger).expense ∧
    totalsSumD (getMonthlyExpenseSummaryD utc exampleLedger)
        = (getSummaryD exampleLedger).expense ∧
    JSNum.le (totalsSumD (getMonthlyExpenseSummaryD utc exampleLedger))
      (getSummaryD exampleLedger).expense = true :=
  have hwhole : ∀ t ∈ exampleLedger, ∃ n : Nat, t.amount = JSVal.num (JSNum.fin n) := by
    intro t ht
    simp only [exampleLedger, mkTx, List.mem_cons, List.mem_singleton, List.not_mem_nil,
      or_false] at ht
    rcases ht with h | h | h
    · exact ⟨1000, by rw [h]; norm_num⟩
    · exact ⟨400, by rw [h]; norm_num⟩
    · exact ⟨300, by rw [h]; norm_num⟩
  ⟨(expense_aggregations_whole utc exampleLedger 700 hwhole (by decide) (by decide!)
      (by norm_num)).1,
    (expense_aggregations_whole utc exampleLedger 700 hwhole (by decide) (by decide!)
      (by norm_num)).2.1 (by decide),
    (expense_aggregations_whole utc exampleLedger 700 hwhole (by decide) (by decide!)
      (by norm_num)).2.2⟩


/-! ## Trend estimate -/

theorem max_zero_fin (p : ℚ) : JSNum.max (JSNum.fin 0) (JSNum.fin p) = JSNum.fin (max 0 p) := by
  unfold JSNum.max
  simp only [JSNum.ge]
  by_cases hp : p ≤ 0
  · simp [hp]
  · simp [hp, le_of_lt (not_le.mp hp)]

theorem predicted_two (monthly : List Bucket) (y1 y2 : ℚ) (hlen : 2 ≤ monthly.length)
    (hys : (sliceLast3 monthly).map (fun m => m.total) = [JSNum.fin y1, JSNum.fin y2]) :
    predictedClamped monthly = some (JSNum.fin (max 0 (2 * y2 - y1))) := by
  have hl : (sliceLast3 monthly).length = 2 := by
    have h := congrArg List.length hys
    simpa using h
  unfold predictedClamped
  simp only [ge_iff_le, hlen, if_true, hl, hys]
  simp [List.range_succ, JSNum.zero_def]
  have hd : (2 * (1 + (1 + 1) * (1 + 1)) - (1 + (1 + 1)) * (1 + (1 + 1)) : ℚ) = 1 := by norm_num
  simp only [hd, one_ne_zero, if_false, JSNum.fin_div_fin _ _ one_ne_zero,
    JSNum.fin_div_fin _ _ (two_ne_zero : (2 : ℚ) ≠ 0), JSNum.fin_mul_fin, JSNum.fin_add_fin,
    JSNum.fin_sub_fin, max_zero_fin]
  congr 2
  ring

theorem predicted_three (monthly : List Bucket) (y1 y2 y3 : ℚ) (hlen : 2 ≤ monthly.length)
    (hys : (sliceLast3 monthly).map (fun m => m.total)
      = [JSNum.fin y1, JSNum.fin y2, JSNum.fin y3]) :
    predictedClamped monthly = some (JSNum.fin (max 0 ((4 * y3 + y2 - 2 * y1) / 3))) := by
  have hl : (sliceLast3 monthly).length = 3 := by
    have h := congrArg List.length hys
    simpa using h
  unfold predictedClamped
  simp only [ge_iff_le, hlen, if_true, hl, hys]
  simp [List.range_succ, JSNum.zero_def]
  have hd : (3 * (1 + (1 + 1) * (1 + 1) + (2 + 1) * (2 + 1))
      - (1 + (1 + 1) + (2 + 1)) * (1 + (1 + 1) + (2 + 1)) : ℚ) = 6 := by norm_num
  have h6 : (6 : ℚ) ≠ 0 := by norm_num
  have h3 : (3 : ℚ) ≠ 0 := by norm_num
  simp only [hd, h6, if_false, JSNum.fin_div_fin _ _ h6, JSNum.fin_div_fin _ _ h3,
    JSNum.fin_mul_fin, JSNum.fin_add_fin, JSNum.fin_sub_fin, max_zero_fin]
  congr 2
  ring

theorem sliceLast3_length {α : Type} (l : List α) : (sliceLast3 l).length = min 3 l.length := by
  unfold sliceLast3
  rw [List.length_drop]
  omega

theorem sliceLast3_append {α : Type} (earlier last : List α) (h : last.length = 3) :
    sliceLast3 (earlier ++ last) = last := by
  unfold sliceLast3
  rw [List.length_append, h, Nat.add_sub_cancel]
  exact List.drop_left earlier last

theorem predictedClamped_of_slice (m1 m2 : List Bucket) (h1 : 2 ≤ m1.length)
    (h2 : 2 ≤ m2.length) (h : sliceLast3 m1 = sliceLast3 m2) :
    predictedClamped m1 = predictedClamped m2 := by
  unfold predictedClamped
  simp only [ge_iff_le, h1, h2, if_true, h]

theorem residuals_two (y1 y2 a b : ℚ) :
    sumSquaredResiduals [y1, y2] a b = (y1 - (a + b)) ^ 2 + (y2 - (2 * a + b)) ^ 2 := by
  simp only [sumSquaredResiduals, residualsFrom]
  push_cast
  ring

theorem residuals_three (y1 y2 y3 a b : ℚ) :
    sumSquaredResiduals [y1, y2, y3] a b
      = (y1 - (a + b)) ^ 2 + (y2 - (2 * a + b)) ^ 2 + (y3 - (3 * a + b)) ^ 2 := by
  simp only [sumSquaredResiduals, residualsFrom]
  push_cast
  ring

/-- For two points the fitted line passes through both, so its residual sum is 0. -/
theorem least_squares_two (y1 y2 a2 b2 : ℚ) :
    sumSquaredResiduals [y1, y2] (y2 - y1) (2 * y1 - y2)
        ≤ sumSquaredResiduals [y1, y2] a2 b2 ∧
      (sumSquaredResiduals [y1, y2] a2 b2
          = sumSquaredResiduals [y1, y2] (y2 - y1) (2 * y1 - y2) →
        a2 = y2 - y1 ∧ b2 = 2 * y1 - y2) := by
  have h0 : sumSquaredResiduals [y1, y2] (y2 - y1) (2 * y1 - y2) = 0 := by
    rw [residuals_two]
    ring
  rw [h0, residuals_two]
  constructor
  · positivity
  · intro h
    have e1 : (y1 - (a2 + b2)) ^ 2 = 0 := by
      nlinarith [sq_nonneg (y1 - (a2 + b2)), sq_nonneg (y2 - (2 * a2 + b2))]
    have e2 : (y2 - (2 * a2 + b2)) ^ 2 = 0 := by
      nlinarith [sq_nonneg (y1 - (a2 + b2)), sq_nonneg (y2 - (2 * a2 + b2))]
    have f1 : y1 - (a2 + b2) = 0 := pow_eq_zero_iff (two_ne_zero) |>.mp e1
    have f2 : y2 - (2 * a2 + b2) = 0 := pow_eq_zero_iff (two_ne_zero) |>.mp e2
    constructor <;> linarith

/-- For three points the residual sum of any line exceeds that of the fitted line by
the sum of the squared differences between the two lines at `x = 1, 2, 3`. -/
theorem least_squares_three (y1 y2 y3 a2 b2 : ℚ) :
    sumSquaredResiduals [y1, y2, y3] ((y3 - y1) / 2) ((y1 + y2 + y3) / 3 - (y3 - y1))
        ≤ sumSquaredResiduals [y1, y2, y3] a2 b2 ∧
      (sumSquaredResiduals [y1, y2, y3] a2 b2
          = sumSquaredResiduals [y1, y2, y3] ((y3 - y1) / 2) ((y1 + y2 + y3) / 3 - (y3 - y1)) →
        a2 = (y3 - y1) / 2 ∧ b2 = (y1 + y2 + y3) / 3 - (y3 - y1)) := by
  have hdiff : sumSquaredResiduals [y1, y2, y3] a2 b2
      = sumSquaredResiduals [y1, y2, y3] ((y3 - y1) / 2) ((y1 + y2 + y3) / 3 - (y3 - y1))
        + ((((y3 - y1) / 2 - a2) + ((y1 + y2 + y3) / 3 - (y3 - y1) - b2)) ^ 2
          + ((2 * ((y3 - y1) / 2 - a2)) + ((y1 + y2 + y3) / 3 - (y3 - y1) - b2)) ^ 2
          + ((3 * ((y3 - y1) / 2 - a2)) + ((y1 + y2 + y3) / 3 - (y3 - y1) - b2)) ^ 2) := by
    rw [residuals_three, residuals_three]
    ring
  constructor
  · rw [hdiff]
    have hnn : 0 ≤ ((((y3 - y1) / 2 - a2) + ((y1 + y2 + y3) / 3 - (y3 - y1) - b2)) ^ 2
          + ((2 * ((y3 - y1) / 2 - a2)) + ((y1 + y2 + y3) / 3 - (y3 - y1) - b2)) ^ 2
          + ((3 * ((y3 - y1) / 2 - a2)) + ((y1 + y2 + y3) / 3 - (y3 - y1) - b2)) ^ 2) := by
      positivity
    linarith
  · intro h
    rw [hdiff] at h
    have e1 : (((y3 - y1) / 2 - a2) + ((y1 + y2 + y3) / 3 - (y3 - y1) - b2)) ^ 2 = 0 := by
      nlinarith [sq_nonneg (((y3 - y1) / 2 - a2) + ((y1 + y2 + y3) / 3 - (y3 - y1) - b2)),
        sq_nonneg ((2 * ((y3 - y1) / 2 - a2)) + ((y1 + y2 + y3) / 3 - (y3 - y1) - b2)),
        sq_nonneg ((3 * ((y3 - y1) / 2 - a2)) + ((y1 + y2 + y3) / 3 - (y3 - y1) - b2))]
    have e2 : ((2 * ((y3 - y1) / 2 - a2)) + ((y1 + y2 + y3) / 3 - (y3 - y1) - b2)) ^ 2 = 0 := by
      nlinarith [sq_nonneg (((y3 - y1) / 2 - a2) + ((y1 + y2 + y3) / 3 - (y3 - y1) - b2)),
        sq_nonneg ((2 * ((y3 - y1) / 2 - a2)) + ((y1 + y2 + y3) / 3 - (y3 - y1) - b2)),
        sq_nonneg ((3 * ((y3 - y1) / 2 - a2)) + ((y1 + y2 + y3) / 3 - (y3 - y1) - b2))]
    have f1 := pow_eq_zero_iff (two_ne_zero) |>.mp e1
    have f2 := pow_eq_zero_iff (two_ne_zero) |>.mp e2
    constructor <;> linarith

/-- C11: for a monthly bucket sequence with at least 2 entries whose last
`n = min(3, length)` totals are the finite numbers `ys = y_1..y_n`, the estimate is
`max(0, a*(n+1) + b)` for the least-squares line `(a, b)` of `ys` against `x = 1..n`:
this pair minimises the sum of the squares `(y_i - (a*i + b))^2` among all lines, and
is the only pair that does.  The buckets before the last three do not affect the
estimate. -/
theorem predictedClamped_least_squares (monthly : List Bucket) (ys : List ℚ)
    (hlen : 2 ≤ monthly.length)
    (hys : (sliceLast3 monthly).map (fun m => m.total) = ys.map JSNum.fin) :
    ys.length = min 3 monthly.length ∧
    (∃ a b : ℚ,
      predictedClamped monthly
        = some (JSNum.fin (max 0 (a * ((ys.length : ℚ) + 1) + b))) ∧
      (∀ a2 b2 : ℚ, sumSquaredResiduals ys a b ≤ sumSquaredResiduals ys a2 b2) ∧
      (∀ a2 b2 : ℚ, sumSquaredResiduals ys a2 b2 = sumSquaredResiduals ys a b →
        a2 = a ∧ b2 = b)) ∧
    (∀ earlier1 earlier2 last : List Bucket, last.length = 3 →
      predictedClamped (earlier1 ++ last) = predictedClamped (earlier2 ++ last)) ∧
    predictedClamped monthly = predictedClamped (sliceLast3 monthly) := by
  have hl : ys.length = min 3 monthly.length := by
    have h := congrArg List.length hys
    rw [List.length_map, List.length_map, sliceLast3_length] at h
    exact h.symm
  have hslice2 : 2 ≤ (sliceLast3 monthly).length := by
    rw [sliceLast3_length]
    omega
  have hidem : sliceLast3 (sliceLast3 monthly) = sliceLast3 monthly := by
    have h3 : (sliceLast3 monthly).length - 3 = 0 := by
      rw [sliceLast3_length]
      omega
    show (sliceLast3 monthly).drop ((sliceLast3 monthly).length - 3) = sliceLast3 monthly
    rw [h3, List.drop_zero]
  refine ⟨hl, ?_, ?_, predictedClamped_of_slice _ _ hlen hslice2 hidem.symm⟩
  · rcases ys with _ | ⟨y1, _ | ⟨y2, _ | ⟨y3, _ | ⟨y4, rest⟩⟩⟩⟩
    · simp only [List.length_nil] at hl
      omega
    · simp only [List.length_cons, List.length_nil] at hl
      omega
    · refine ⟨y2 - y1, 2 * y1 - y2, ?_, ?_, ?_⟩
      · rw [predicted_two monthly y1 y2 hlen hys]
        congr 3
        simp only [List.length_cons, List.length_nil]
        push_cast
        ring
      · intro a2 b2
        exact (least_squares_two y1 y2 a2 b2).1
      · intro a2 b2
        exact (least_squares_two y1 y2 a2 b2).2
    · refine ⟨(y3 - y1) / 2, (y1 + y2 + y3) / 3 - (y3 - y1), ?_, ?_, ?_⟩
      · rw [predicted_three monthly y1 y2 y3 hlen hys]
        congr 3
        simp only [List.length_cons, List.length_nil]
        push_cast
        ring
      · intro a2 b2
        exact (least_squares_three y1 y2 y3 a2 b2).1
      · intro a2 b2
        exact (least_squares_three y1 y2 y3 a2 b2).2
    · simp only [List.length_cons] at hl
      omega
  · intro earlier1 earlier2 last hlast
    apply predictedClamped_of_slice
    · rw [List.length_append]
      omega
    · rw [List.length_append]
      omega
    · rw [sliceLast3_append earlier1 last hlast, sliceLast3_append earlier2 last hlast]

/-- Witness for C11: four buckets with totals 5000, 900, 500, 100; the estimate is made
from 900, 500, 100. -/
theorem predictedClamped_least_squares_witness :
    ([900, 500, 100] : List ℚ).length = min 3 sampleMonthly.length ∧
    (∃ a b : ℚ,
      predictedClamped sampleMonthly
        = some (JSNum.fin (max 0 (a * ((([900, 500, 100] : List ℚ).length : ℚ) + 1) + b))) ∧
      (∀ a2 b2 : ℚ, sumSquaredResiduals [900, 500, 100] a b
        ≤ sumSquaredResiduals [900, 500, 100] a2 b2) ∧
      (∀ a2 b2 : ℚ, sumSquaredResiduals [900, 500, 100] a2 b2
          = sumSquaredResiduals [900, 500, 100] a b →
        a2 = a ∧ b2 = b)) ∧
    (∀ earlier1 earlier2 last : List Bucket, last.length = 3 →
      predictedClamped (earlier1 ++ last) = predictedClamped (earlier2 ++ last)) ∧
    predictedClamped sampleMonthly = predictedClamped (sliceLast3 sampleMonthly) :=
  predictedClamped_least_squares sampleMonthly [900, 500, 100] (by decide) (by decide!)

/-- The estimate for the four sample buckets: the fitted line through 900, 500, 100
gives -300 for the next month, which is clamped to 0. -/
theorem predictedClamped_sample : predictedClamped sampleMonthly = some (JSNum.fin 0) := by
  decide!

end MoneyHabits
